import Mathlib

/-!
Verification of the js-to-flasm AS2 compiler core: the register allocator,
the push coalescer, the AST code generator fragment relevant to assignment
emission, the comment-directive processor, and the stack simulator.

JavaScript strings are modelled as lists of characters (`Str`); JavaScript
numbers that hold integers are modelled as `Int`; JavaScript objects keyed
by numbers are modelled as functions `Int → Option _`; code that throws is
modelled with `Except`.
-/

namespace J2F

/-- JavaScript strings, modelled as lists of characters. -/
abbrev Str := List Char

/-- The single-quote character used by the emitter for string operands. -/
def sq : Char := '\''

/-- Wrap a string in single quotes, as the emitter does for names. -/
def quoted (s : Str) : Str := sq :: (s ++ [sq])

/-- ASCII whitespace, the fragment of the JavaScript `\s` class that can
occur in emitted lines. -/
def isWsChar (c : Char) : Bool :=
  c = ' ' ∨ c = '\t' ∨ c = '\n' ∨ c = '\r' ∨ c = '\x0c' ∨ c = '\x0b'

/-- Model of `String.prototype.startsWith`. -/
def startsWithL : Str → Str → Bool
  | [], _ => true
  | _ :: _, [] => false
  | p :: ps, c :: cs => p = c && startsWithL ps cs

/-- Model of `String.prototype.endsWith`. -/
def endsWithL (suffix s : Str) : Bool :=
  startsWithL suffix.reverse s.reverse

/-- Model of `String.prototype.includes`: substring containment. -/
def containsL (needle : Str) : Str → Bool
  | [] => needle.isEmpty
  | c :: cs => startsWithL needle (c :: cs) || containsL needle cs

/-- Model of `String.prototype.trim`: strip whitespace from both ends. -/
def trimL (s : Str) : Str :=
  ((s.dropWhile isWsChar).reverse.dropWhile isWsChar).reverse

/-- Model of `String.prototype.padEnd`: right-pad with spaces to a width. -/
def padEndL (s : Str) (width : Nat) : Str :=
  s ++ List.replicate (width - s.length) ' '

/-- Model of `Array.prototype.join` on strings, with a separator. -/
def joinSepL (sep : Str) : List Str → Str
  | [] => []
  | [x] => x
  | x :: y :: rest => x ++ sep ++ joinSepL sep (y :: rest)

/-- Decimal digits of a natural number, fuel-based so that it reduces in the
kernel; `fuel` bounds the number of digits. -/
def natDigits : Nat → Nat → Str
  | 0, _ => []
  | f + 1, n =>
    if n < 10 then [Char.ofNat (48 + n)]
    else natDigits f (n / 10) ++ [Char.ofNat (48 + n % 10)]

/-- Rendering of an integer as JavaScript template interpolation does. -/
def intToStr (i : Int) : Str :=
  if i < 0 then '-' :: natDigits (i.natAbs + 1) i.natAbs
  else natDigits (i.toNat + 1) i.toNat

/-! ## Register and RegisterAllocator

Embedded from `lib/register.js` and `lib/register-allocator.js`.  The JS
object `_registers` (a record keyed by numeric register id) is modelled as a
function `Int → Option Register`; `allocate`'s 1..254 ascending scan is a
fuel-based recursion with fuel 254. -/

/-- A register slot: numeric id, optional symbolic name, optional debug tag. -/
structure Register where
  id : Int
  name : Option Str
  debugName : Option Str
deriving DecidableEq

/-- JS `this.name || this.id`: an absent or empty name falls back to the id. -/
def Register.nameOrId (r : Register) : Str :=
  match r.name with
  | some n => if n.isEmpty then intToStr r.id else n
  | none => intToStr r.id

/-- `Register.toToken`: render as `r:<name-or-id>`, with a block-comment debug
tag appended when one is present (and non-empty, JS truthiness). -/
def Register.toToken (r : Register) : Str :=
  match r.debugName with
  | some d =>
    if d.isEmpty then "r:".data ++ r.nameOrId
    else "r:".data ++ r.nameOrId ++ " /*".data ++ d ++ "*/".data
  | none => "r:".data ++ r.nameOrId

/-- The allocator's state: the `_registers` record. -/
structure RegisterAllocator where
  registers : Int → Option Register

/-- A freshly constructed allocator holds nothing. -/
def RegisterAllocator.empty : RegisterAllocator := ⟨fun _ => none⟩

/-- The two failure modes of the allocator. -/
inductive AllocError
  | outOfRegisters
  | registerConflict
deriving DecidableEq

/-- `assign(id, name, debugName)`: throws RegisterConflict when the slot is
occupied, otherwise claims exactly the requested id (no range check). -/
def RegisterAllocator.assign (s : RegisterAllocator) (id : Int)
    (name debugName : Option Str) : Except AllocError (Register × RegisterAllocator) :=
  if (s.registers id).isSome then .error .registerConflict
  else
    let r : Register := ⟨id, name, debugName⟩
    .ok (r, ⟨fun j => if j = id then some r else s.registers j⟩)

/-- The ascending scan inside `allocate`: try ids `i, i+1, …` while fuel
lasts; claim the first free slot. -/
def allocGo (s : RegisterAllocator) (name debugName : Option Str) :
    Nat → Int → Except AllocError (Register × RegisterAllocator)
  | 0, _ => .error .outOfRegisters
  | f + 1, i =>
    if (s.registers i).isSome then allocGo s name debugName f (i + 1)
    else
      let r : Register := ⟨i, name, debugName⟩
      .ok (r, ⟨fun j => if j = i then some r else s.registers j⟩)

/-- `allocate(name, debugName)`: scan ids 1 through 254 in ascending order;
throw OutOfRegisters when every slot is taken. -/
def RegisterAllocator.allocate (s : RegisterAllocator)
    (name debugName : Option Str) : Except AllocError (Register × RegisterAllocator) :=
  allocGo s name debugName 254 1

/-- `free(register)`: delete the slot at `register.id`. -/
def RegisterAllocator.free (s : RegisterAllocator) (r : Register) : RegisterAllocator :=
  ⟨fun j => if j = r.id then none else s.registers j⟩

/-- An arbitrary allocator operation, for quantifying over operation
sequences. -/
inductive AllocOp
  | allocateOp (name debugName : Option Str)
  | assignOp (id : Int) (name debugName : Option Str)
  | freeOp (r : Register)

/-- Apply one operation; a thrown error leaves the state unchanged (in the
program a throw aborts the run, so this reaches a superset of its states). -/
def applyAllocOp (s : RegisterAllocator) : AllocOp → RegisterAllocator
  | .allocateOp n d => match s.allocate n d with
    | .ok (_, s') => s'
    | .error _ => s
  | .assignOp id n d => match s.assign id n d with
    | .ok (_, s') => s'
    | .error _ => s
  | .freeOp r => s.free r

/-- Apply a sequence of allocator operations. -/
def applyAllocOps (s : RegisterAllocator) (ops : List AllocOp) : RegisterAllocator :=
  ops.foldl applyAllocOp s

/-- Every held `Register` is stored under its own id: together with the
functional representation this is the "at most one Register per id"
invariant. -/
def wellKeyed (s : RegisterAllocator) : Prop :=
  ∀ i r, s.registers i = some r → r.id = i

lemma allocGo_ok (s : RegisterAllocator) (n d : Option Str) :
    ∀ (f : Nat) (i : Int) (r : Register) (s' : RegisterAllocator),
      allocGo s n d f i = .ok (r, s') →
      i ≤ r.id ∧ r.id < i + f ∧ s.registers r.id = none ∧
        (∀ j, i ≤ j → j < r.id → (s.registers j).isSome = true) ∧
        r = ⟨r.id, n, d⟩ ∧
        (∀ j, s'.registers j = if j = r.id then some r else s.registers j) := by
  intro f
  induction f with
  | zero => intro i r s' h; simp [allocGo] at h
  | succ f ih =>
    intro i r s' h
    rw [allocGo] at h
    split at h
    · rename_i hi
      obtain ⟨h1, h2, h3, h4, h5, h6⟩ := ih (i + 1) r s' h
      refine ⟨by omega, by push_cast at h2 ⊢; omega, h3, ?_, h5, h6⟩
      intro j hj1 hj2
      rcases eq_or_lt_of_le hj1 with hji | hji
      · exact hji ▸ hi
      · exact h4 j (by omega) hj2
    · rename_i hi
      simp only [Except.ok.injEq, Prod.mk.injEq] at h
      obtain ⟨hr, hs⟩ := h
      subst hr; subst hs
      dsimp only
      refine ⟨le_refl _, by push_cast; omega, ?_, ?_, rfl, fun j => rfl⟩
      · exact Option.not_isSome_iff_eq_none.mp (by simpa using hi)
      · intro j hj1 hj2; omega

lemma allocGo_err_iff (s : RegisterAllocator) (n d : Option Str) :
    ∀ (f : Nat) (i : Int),
      allocGo s n d f i = .error .outOfRegisters ↔
        ∀ j, i ≤ j → j < i + f → (s.registers j).isSome = true := by
  intro f
  induction f with
  | zero =>
    intro i
    simp only [allocGo]
    exact ⟨fun _ j hj1 hj2 => absurd hj2 (by omega), fun _ => trivial⟩
  | succ f ih =>
    intro i
    rw [allocGo]
    split
    · rename_i hi
      rw [ih (i + 1)]
      constructor
      · intro h j hj1 hj2
        rcases eq_or_lt_of_le hj1 with hji | hji
        · exact hji ▸ hi
        · exact h j (by omega) (by push_cast at hj2 ⊢; omega)
      · intro h j hj1 hj2
        exact h j (by omega) (by push_cast at hj2 ⊢; omega)
    · rename_i hi
      constructor
      · intro h; exact absurd h (by simp)
      · intro h
        exact absurd (h i (le_refl _) (by push_cast; omega)) (by simpa using hi)

lemma allocGo_err_eq (s : RegisterAllocator) (n d : Option Str) :
    ∀ (f : Nat) (i : Int) (e : AllocError),
      allocGo s n d f i = .error e → e = .outOfRegisters := by
  intro f
  induction f with
  | zero => intro i e h; simpa [allocGo] using h.symm
  | succ f ih =>
    intro i e h
    rw [allocGo] at h
    split at h
    · exact ih (i + 1) e h
    · exact absurd h (by simp)

lemma wellKeyed_applyAllocOp (s : RegisterAllocator) (op : AllocOp)
    (h : wellKeyed s) : wellKeyed (applyAllocOp s op) := by
  cases op with
  | allocateOp n d =>
    simp only [applyAllocOp]
    split
    · rename_i r s' hok
      obtain ⟨_, _, _, _, hr, hs⟩ := allocGo_ok s n d 254 1 r s' hok
      intro i r' hi
      rw [hs i] at hi
      split at hi
      · rename_i hie
        rw [Option.some.injEq] at hi
        subst hi
        exact hie.symm
      · exact h i r' hi
    · exact h
  | assignOp id n d =>
    simp only [applyAllocOp]
    split
    · rename_i r' s' hok
      rw [RegisterAllocator.assign] at hok
      split at hok
      · exact absurd hok (by simp)
      · simp only [Except.ok.injEq, Prod.mk.injEq] at hok
        obtain ⟨hr, hs⟩ := hok
        subst hr; subst hs
        intro i r'' hi
        simp only at hi
        split at hi
        · rename_i hie
          rw [Option.some.injEq] at hi
          subst hi
          exact hie.symm
        · exact h i r'' hi
    · exact h
  | freeOp r =>
    intro i r' hi
    simp only [applyAllocOp, RegisterAllocator.free] at hi
    split at hi
    · exact absurd hi (by simp)
    · exact h i r' hi

lemma wellKeyed_applyAllocOps (ops : List AllocOp) :
    ∀ (s : RegisterAllocator), wellKeyed s → wellKeyed (applyAllocOps s ops) := by
  induction ops with
  | nil => intro s h; exact h
  | cons op rest ih =>
    intro s h
    exact ih (applyAllocOp s op) (wellKeyed_applyAllocOp s op h)

/-- Claim C5 fails as stated: `assign` performs no range check, so a
register id outside [1,254] can be claimed.  From an empty allocator,
`assign 300` does not fail and afterwards id 300 is held, although
300 ∉ [1,254]. -/
theorem c5_counterexample :
    RegisterAllocator.empty.assign 300 none none =
      .ok (⟨300, none, none⟩,
        ⟨fun j => if j = 300 then some ⟨300, none, none⟩ else none⟩) ∧
    ¬((1 : Int) ≤ 300 ∧ (300 : Int) ≤ 254) :=
  ⟨rfl, by omega⟩

/-- Claim C5, amended: in any allocator state, `allocate` claims the
smallest free id in [1,254] and fails with OutOfRegisters exactly when all
254 ids are held; `assign id` fails exactly when id is already held and
otherwise claims exactly that id (with no range restriction); `free`
releases its register's id and nothing else; and along every operation
sequence each held register is stored under its own id (so at most one held
register exists per id).  Ids introduced by `assign` need not lie in
[1,254]. -/
theorem c5_allocator_amended :
    (∀ (s : RegisterAllocator) (n d : Option Str) (r : Register)
        (s' : RegisterAllocator), s.allocate n d = .ok (r, s') →
      1 ≤ r.id ∧ r.id ≤ 254 ∧ s.registers r.id = none ∧
        (∀ j, 1 ≤ j → j < r.id → (s.registers j).isSome = true) ∧
        (∀ j, s'.registers j = if j = r.id then some r else s.registers j)) ∧
    (∀ (s : RegisterAllocator) (n d : Option Str),
      (∃ e, s.allocate n d = .error e) ↔
        ∀ j, 1 ≤ j → j ≤ 254 → (s.registers j).isSome = true) ∧
    (∀ (s : RegisterAllocator) (id : Int) (n d : Option Str),
      ((∃ e, s.assign id n d = .error e) ↔ (s.registers id).isSome = true) ∧
      (∀ r s', s.assign id n d = .ok (r, s') →
        r.id = id ∧ s'.registers id = some r ∧
          ∀ j, j ≠ id → s'.registers j = s.registers j)) ∧
    (∀ (s : RegisterAllocator) (r : Register),
      (s.free r).registers r.id = none ∧
        ∀ j, j ≠ r.id → (s.free r).registers j = s.registers j) ∧
    (∀ (ops : List AllocOp) (s : RegisterAllocator),
      wellKeyed s → wellKeyed (applyAllocOps s ops)) := by
  refine ⟨?_, ?_, ?_, ?_, fun ops s h => wellKeyed_applyAllocOps ops s h⟩
  · intro s n d r s' h
    obtain ⟨h1, h2, h3, h4, _, h6⟩ := allocGo_ok s n d 254 1 r s' h
    exact ⟨h1, by omega, h3, h4, h6⟩
  · intro s n d
    constructor
    · rintro ⟨e, he⟩
      have := allocGo_err_eq s n d 254 1 e he
      subst this
      intro j hj1 hj2
      exact (allocGo_err_iff s n d 254 1).mp he j hj1 (by omega)
    · intro h
      exact ⟨.outOfRegisters, (allocGo_err_iff s n d 254 1).mpr
        fun j hj1 hj2 => h j hj1 (by omega)⟩
  · intro s id n d
    constructor
    · constructor
      · rintro ⟨e, he⟩
        by_contra hc
        simp [RegisterAllocator.assign, hc] at he
      · intro h
        exact ⟨.registerConflict, by simp [RegisterAllocator.assign, h]⟩
    · intro r s' h
      rw [RegisterAllocator.assign] at h
      split at h
      · exact absurd h (by simp)
      · obtain ⟨hr, hs⟩ := by exact Prod.mk.injEq .. ▸ (Except.ok.injEq .. ▸ h)
        subst hr hs
        exact ⟨rfl, by simp, fun j hj => by simp [hj]⟩
  · intro s r
    refine ⟨by simp [RegisterAllocator.free], fun j hj => by simp [RegisterAllocator.free, hj]⟩

/-- Witness for `c5_allocator_amended` at concrete inputs: from the empty
allocator, `allocate` claims id 1, inside [1,254]. -/
theorem c5_allocator_amended_witness :
    1 ≤ (⟨1, none, none⟩ : Register).id ∧ (⟨1, none, none⟩ : Register).id ≤ 254 := by
  have h := c5_allocator_amended.1 RegisterAllocator.empty none none ⟨1, none, none⟩
    ⟨fun j => if j = 1 then some ⟨1, none, none⟩ else none⟩ rfl
  exact ⟨h.1, h.2.1⟩

/-! ## Push coalescer

Embedded from `Compiler.optimize` (lib/compiler.js lines 896-914): a while
loop over `_outputLines` merging adjacent lines that both match
`/^\s*push /`; after a merge the index stays put so chains coalesce.  The
loop is modelled with explicit fuel (`lines.length` steps always suffice:
each iteration either consumes one element or shortens the list). -/

/-- The anchored test `/^\s*push /.test(line)`: optional leading whitespace
followed by the literal characters `push `. -/
def isPushLine : Str → Bool
  | [] => false
  | c :: cs => if isWsChar c then isPushLine cs else startsWithL "push ".data (c :: cs)

/-- `line.replace(/^\s*push /, "")`: strip the matched prefix when the line
matches; a line that does not match is returned unchanged. -/
def stripPushOpcode (s : Str) : Str :=
  if isPushLine s then (s.dropWhile isWsChar).drop 5 else s

/-- One fuel-bounded pass of the merging loop. -/
def coalesceGo : Nat → List Str → List Str
  | 0, lines => lines
  | _ + 1, [] => []
  | _ + 1, [x] => [x]
  | f + 1, x :: y :: rest =>
    if isPushLine x && isPushLine y then
      coalesceGo f ((x ++ ", ".data ++ stripPushOpcode y) :: rest)
    else
      x :: coalesceGo f (y :: rest)

/-- `Compiler.optimize` on the emitted lines. -/
def optimize (lines : List Str) : List Str :=
  coalesceGo lines.length lines

/-- No two consecutive lines both match the push pattern. -/
def noAdjacentPush : List Str → Prop
  | x :: y :: rest =>
    ¬(isPushLine x = true ∧ isPushLine y = true) ∧ noAdjacentPush (y :: rest)
  | _ => True

lemma startsWithL_append (p : Str) :
    ∀ s t, startsWithL p s = true → startsWithL p (s ++ t) = true := by
  induction p with
  | nil => intro s t _; rfl
  | cons c cs ih =>
    intro s t h
    cases s with
    | nil => exact absurd h (by simp [startsWithL])
    | cons a as =>
      simp only [startsWithL, Bool.and_eq_true] at h ⊢
      exact ⟨h.1, ih as t h.2⟩

lemma isPushLine_append (x t : Str) (h : isPushLine x = true) :
    isPushLine (x ++ t) = true := by
  induction x with
  | nil => exact absurd h (by simp [isPushLine])
  | cons c cs ih =>
    rw [isPushLine] at h
    rw [List.cons_append, isPushLine]
    split at h
    · rename_i hw
      rw [if_pos hw]
      exact ih h
    · rename_i hw
      rw [if_neg hw]
      exact startsWithL_append _ _ _ h

lemma optimize_cons_merge (x y : Str) (rest : List Str)
    (hx : isPushLine x = true) (hy : isPushLine y = true) :
    optimize (x :: y :: rest) =
      optimize ((x ++ ", ".data ++ stripPushOpcode y) :: rest) := by
  simp only [optimize, List.length_cons, coalesceGo, hx, hy, Bool.and_self, if_pos]

lemma optimize_cons_no_merge (x y : Str) (rest : List Str)
    (h : ¬(isPushLine x = true ∧ isPushLine y = true)) :
    optimize (x :: y :: rest) = x :: optimize (y :: rest) := by
  have hb : (isPushLine x && isPushLine y) = false := by
    cases h1 : isPushLine x with
    | false => simp
    | true =>
      cases h2 : isPushLine y with
      | false => simp
      | true => exact absurd ⟨h1, h2⟩ h
  simp only [optimize, List.length_cons, coalesceGo, hb, Bool.false_eq_true, if_false]

lemma optimize_head :
    ∀ (n : Nat) (y : Str) (rest : List Str), rest.length ≤ n →
      ∃ z zs, optimize (y :: rest) = z :: zs ∧ isPushLine z = isPushLine y := by
  intro n
  induction n with
  | zero =>
    intro y rest hlen
    rw [List.length_eq_zero.mp (Nat.le_zero.mp hlen)]
    exact ⟨y, [], rfl, rfl⟩
  | succ n ih =>
    intro y rest hlen
    cases rest with
    | nil => exact ⟨y, [], rfl, rfl⟩
    | cons r rs =>
      by_cases hm : isPushLine y = true ∧ isPushLine r = true
      · rw [optimize_cons_merge y r rs hm.1 hm.2]
        obtain ⟨z, zs, hz, hpz⟩ :=
          ih (y ++ ", ".data ++ stripPushOpcode r) rs (by simp at hlen; omega)
        refine ⟨z, zs, hz, ?_⟩
        rw [hpz,
          isPushLine_append (y ++ ", ".data) (stripPushOpcode r)
            (isPushLine_append y ", ".data hm.1),
          hm.1]
      · rw [optimize_cons_no_merge y r rs hm]
        exact ⟨y, optimize (r :: rs), rfl, rfl⟩

lemma noAdjacentPush_optimize :
    ∀ (n : Nat) (ls : List Str), ls.length ≤ n → noAdjacentPush (optimize ls) := by
  intro n
  induction n with
  | zero =>
    intro ls hlen
    rw [List.length_eq_zero.mp (Nat.le_zero.mp hlen)]
    exact trivial
  | succ n ih =>
    intro ls hlen
    cases ls with
    | nil => exact trivial
    | cons x rest =>
      cases rest with
      | nil => exact trivial
      | cons y rs =>
        by_cases hm : isPushLine x = true ∧ isPushLine y = true
        · rw [optimize_cons_merge x y rs hm.1 hm.2]
          exact ih _ (by simp at hlen ⊢; omega)
        · rw [optimize_cons_no_merge x y rs hm]
          obtain ⟨z, zs, hz, hpz⟩ := optimize_head rs.length y rs (le_refl _)
          have hrest : noAdjacentPush (optimize (y :: rs)) :=
            ih (y :: rs) (by simp at hlen ⊢; omega)
          rw [hz] at hrest ⊢
          exact ⟨fun hc => hm ⟨hc.1, hpz ▸ hc.2⟩, hrest⟩

lemma optimize_of_noAdjacentPush :
    ∀ (n : Nat) (ls : List Str), ls.length ≤ n → noAdjacentPush ls → optimize ls = ls := by
  intro n
  induction n with
  | zero =>
    intro ls hlen _
    rw [List.length_eq_zero.mp (Nat.le_zero.mp hlen)]
    rfl
  | succ n ih =>
    intro ls hlen hadj
    cases ls with
    | nil => rfl
    | cons x rest =>
      cases rest with
      | nil => rfl
      | cons y rs =>
        rw [optimize_cons_no_merge x y rs hadj.1]
        rw [ih (y :: rs) (by simp at hlen ⊢; omega) hadj.2]

/-- Claim C6: the push coalescer is idempotent; after one pass no two
consecutive lines both match `^\s*push `; a merge replaces two adjacent
matching lines by the first line's full text, a comma-space, and the second
line's text with its leading whitespace-and-`push ` prefix removed, and the
loop re-examines the merged line so chains coalesce. -/
theorem c6_coalescer_idempotent :
    (∀ lines : List Str, optimize (optimize lines) = optimize lines) ∧
    (∀ lines : List Str, noAdjacentPush (optimize lines)) ∧
    (∀ (x y : Str) (rest : List Str), isPushLine x = true → isPushLine y = true →
      optimize (x :: y :: rest) =
        optimize ((x ++ ", ".data ++ stripPushOpcode y) :: rest)) ∧
    (∀ y : Str, isPushLine y = true →
      stripPushOpcode y = (y.dropWhile isWsChar).drop 5) := by
  refine ⟨?_, ?_, optimize_cons_merge, ?_⟩
  · intro lines
    exact optimize_of_noAdjacentPush (optimize lines).length (optimize lines)
      (le_refl _) (noAdjacentPush_optimize lines.length lines (le_refl _))
  · intro lines
    exact noAdjacentPush_optimize lines.length lines (le_refl _)
  · intro y hy
    simp only [stripPushOpcode, hy, if_pos]

/-- Witness for `c6_coalescer_idempotent`: coalescing a concrete pair of
push lines (the second carrying leading whitespace). -/
theorem c6_coalescer_idempotent_witness :
    optimize ["push 1".data, " push 2".data] = ["push 1, 2".data] := by
  have h := c6_coalescer_idempotent.2.2.1 "push 1".data " push 2".data []
    (by decide) (by decide)
  exact h.trans (by decide)

/-! ## Compiler errors and contexts

`CompilerError` gathers the `throw new CompilerError(...)` sites of
`lib/compiler.js` that the embedded fragment can reach. -/

/-- Failure modes of the embedded compiler fragment. -/
inductive CompilerError
  | nodeNotImplemented
  | leftSideTypeNotImplemented
  | operatorNotImplemented
  | thisOutsideFunction
  | internalThisRegisterMissing
  | thisUsedWithoutDirectiveDeclaration
  | allocatorFailure (e : AllocError)
  | propertyTypeNotImplemented
  | objectTypeNotImplemented
  | directiveExpectsMatchingPush
deriving DecidableEq

/-- How a register-variables context got onto the stack: pushed by a
function body (together with a FunctionContext) or pushed by a
`@js2f/push-register-context` directive. -/
inductive CtxOrigin
  | fromFunction
  | fromDirective
deriving DecidableEq

/-- A register-variables context: only `getVariableRegister` is exposed.
The `origin` field records who pushed it (the source never inspects it). -/
structure RegisterVariablesContext where
  origin : CtxOrigin
  getVariableRegister : Str → Option Register

/-! ## Directive processor: `@js2f/pop-register-context`

Embedded from `parseAndExecuteJS2fDirectives`, case `PopRegisterContext`
(lib/compiler.js lines 1052-1062): fail when `registerVariables.peek()` is
falsy (empty stack), otherwise pop.  The function-context stack is passed
so that the embedding shows it is never consulted. -/

/-- Execute one `@js2f/pop-register-context` directive.  `fnStack` is the
compiler's function-context stack (here, each function's allocator state);
the source code never reads it in this case, and it never reads the popped
context's `origin`. -/
def executePopRegisterContextDirective
    (fnStack : List RegisterAllocator)
    (regVarsStack : List RegisterVariablesContext) :
    Except CompilerError (List RegisterVariablesContext) :=
  match regVarsStack with
  | [] => .error .directiveExpectsMatchingPush
  | _ :: rest => .ok rest

/-! ## AST code generator fragment

Embedded from `Compiler.generators` (lib/compiler.js): the node variants
reachable from the claims about assignment emission — literals,
identifiers, `this`, member expressions, assignment expressions and
expression statements.  The cross-cutting node flags
`__internalVoidExpressionOffered` and `__internalSkipGetMember` are passed
as explicit parameters, and the flag `__internalVoidExpressionAck` is the
`Bool` in the result.  The enclosing function's register allocator is
threaded through the visitor; `insideFunction` records whether a
FunctionContext is present (`contexts.function.peek()`), and at the root
the allocator parameter is never consulted.  Comment-emission options
(`emitStatementComments`, `emitAssignmentComments`) are off; the
`emitRegisterComments` option is the `erc` parameter.  Emitted lines carry
no indentation, matching root-level emission (`_indent = 0`); indentation
is orthogonal to every claim below. -/

/-- The AST subset. -/
inductive Node
  | numericLiteral (value : Int)
  | stringLiteral (value : Str)
  | identifier (name : Str)
  | thisExpression
  | memberExpression (object : Node) (property : Node) (computed : Bool)
  | assignmentExpression (operator : Str) (left : Node) (right : Node)
  | expressionStatement (expression : Node)

/-- `isPushableLiteralNode`, restricted to the embedded variants (the
regexp, null, boolean and bigint literal variants are not reachable from
the claims). -/
def isPushableLiteralNode : Node → Bool
  | .numericLiteral _ => true
  | .stringLiteral _ => true
  | .identifier name => name = "undefined".data
  | _ => false

/-- `str.replace(regex, repl)` for a single-character regex without the
global flag: only the first occurrence is replaced. -/
def replaceFirstChar (c : Char) (repl : Str) : Str → Str
  | [] => []
  | a :: as => if a = c then repl ++ as else a :: replaceFirstChar c repl as

/-- The escape table of `generators.StringLiteral`, in source order:
backspace, form feed, newline, carriage return, tab. -/
def escapeTable : List (Char × Str) :=
  [('\x08', ['\\', 'b']), ('\x0c', ['\\', 'f']), ('\x0a', ['\\', 'n']),
   ('\x0d', ['\\', 'r']), ('\x09', ['\\', 't'])]

/-- The `escapes.reduce(...)` of `generators.StringLiteral`: apply each
(non-global) replacement once, in table order. -/
def stringLiteralEscape (v : Str) : Str :=
  escapeTable.foldl (fun str p => replaceFirstChar p.1 p.2 str) v

/-- `contexts.registerVariables.peek()?.getVariableRegister(name)`. -/
def peekGetVariableRegister (regVars : List RegisterVariablesContext)
    (name : Str) : Option Register :=
  match regVars with
  | [] => none
  | c :: _ => c.getVariableRegister name

/-- One visitor dispatch: returns the emitted lines, the void-ack flag and
the updated allocator of the enclosing function. -/
def printNode (erc : Bool) (regVars : List RegisterVariablesContext)
    (insideFunction : Bool) (voidOffered skipGetMember : Bool)
    (alloc : RegisterAllocator) :
    Node → Except CompilerError (List Str × Bool × RegisterAllocator)
  | .numericLiteral v =>
    .ok (["push ".data ++ intToStr v], false, alloc)
  | .stringLiteral v =>
    .ok (["push ".data ++ quoted (stringLiteralEscape v)], false, alloc)
  | .identifier name =>
    if name = "undefined".data then .ok (["push UNDEF".data], false, alloc)
    else
      match peekGetVariableRegister regVars name with
      | some register => .ok (["push ".data ++ register.toToken], false, alloc)
      | none =>
        if skipGetMember then
          .ok (["push ".data ++ quoted name], false, alloc)
        else
          .ok (["push ".data ++ quoted name, "getVariable".data], false, alloc)
  | .thisExpression =>
    match regVars with
    | [] => .error .thisOutsideFunction
    | ctx :: _ =>
      match ctx.getVariableRegister "this".data with
      | none =>
        if !insideFunction then .error .internalThisRegisterMissing
        else .error .thisUsedWithoutDirectiveDeclaration
      | some register => .ok (["push ".data ++ register.toToken], false, alloc)
  | .memberExpression obj prop computed => do
    let (objLines, a1) ←
      (match obj with
       | .identifier objName =>
         (match peekGetVariableRegister regVars objName with
          | some r =>
            pure (["push ".data ++ r.toToken], alloc)
          | none =>
            pure (["push ".data ++ quoted objName, "getVariable".data], alloc))
       | .memberExpression _ _ _ => do
         let (ls, _, a') ← printNode erc regVars insideFunction false false alloc obj
         pure (ls, a')
       | .thisExpression => do
         let (ls, _, a') ← printNode erc regVars insideFunction false false alloc obj
         pure (ls, a')
       | _ => .error .objectTypeNotImplemented)
    let (propLines, a2) ←
      (if computed then do
        let (pl, _, a') ← printNode erc regVars insideFunction false false a1 prop
        pure (pl, a')
      else
        match prop with
        | .identifier pn => pure (["push ".data ++ quoted pn], a1)
        | _ => .error .propertyTypeNotImplemented)
    if skipGetMember then pure (objLines ++ propLines, false, a2)
    else pure (objLines ++ propLines ++ ["getMember".data], false, a2)
  | .assignmentExpression operator left right =>
    match left with
    | .identifier leftName =>
      (match peekGetVariableRegister regVars leftName with
       | some reg => do
         -- left resolves to a register: setRegister does not eat the value
         let (rl, _, a1) ←
           (if operator = "=".data then
             printNode erc regVars insideFunction false false alloc right
           else .error .operatorNotImplemented)
         if voidOffered then
           pure (rl ++ ["setRegister ".data ++ reg.toToken, "pop".data], true, a1)
         else
           pure (rl ++ ["setRegister ".data ++ reg.toToken], false, a1)
       | none => do
         -- evaluateLeft for a non-member left: emit push of the name
         let ll := ["push ".data ++ quoted leftName]
         let (rl, _, a2) ←
           (if operator = "=".data then
             printNode erc regVars insideFunction false false alloc right
           else .error .operatorNotImplemented)
         if voidOffered then
           -- callee cleanup: the parent does not need the value
           pure (ll ++ rl ++ ["setVariable".data], true, a2)
         else if isPushableLiteralNode right then do
           -- caller cleanup A: re-push the literal after the assignment
           let (rl2, _, a3) ←
             (if operator = "=".data then
               printNode erc regVars insideFunction false false a2 right
             else .error .operatorNotImplemented)
           pure (ll ++ rl ++ ["setVariable".data] ++ rl2, false, a3)
         else if insideFunction then
           -- caller cleanup B: preserve the value in a temporary register
           match a2.allocate none (if erc then some "temp".data else none) with
           | .error e => .error (.allocatorFailure e)
           | .ok (temp, a3) =>
             pure (ll ++ rl ++ ["setRegister ".data ++ temp.toToken,
               "setVariable".data, "push ".data ++ temp.toToken], false,
               a3.free temp)
         else
           -- caller cleanup C: at the root, borrow global register 1
           pure ("push r:1".data ::
             (ll ++ rl ++ ["setRegister r:1".data, "setVariable".data,
               "setRegister r:1".data]), false, a2))
    | .memberExpression o p c => do
      -- the skip-get hint stops member emission after object and property
      let (ll, _, a1) ←
        printNode erc regVars insideFunction false true alloc (.memberExpression o p c)
      let (rl, _, a2) ←
        (if operator = "=".data then
          printNode erc regVars insideFunction false false a1 right
        else .error .operatorNotImplemented)
      if voidOffered then
        pure (ll ++ rl ++ ["setMember".data], true, a2)
      else if isPushableLiteralNode right then do
        let (rl2, _, a3) ←
          (if operator = "=".data then
            printNode erc regVars insideFunction false false a2 right
          else .error .operatorNotImplemented)
        pure (ll ++ rl ++ ["setMember".data] ++ rl2, false, a3)
      else if insideFunction then
        match a2.allocate none (if erc then some "temp".data else none) with
        | .error e => .error (.allocatorFailure e)
        | .ok (temp, a3) =>
          pure (ll ++ rl ++ ["setRegister ".data ++ temp.toToken,
            "setMember".data, "push ".data ++ temp.toToken], false,
            a3.free temp)
      else
        pure ("push r:1".data ::
          (ll ++ rl ++ ["setRegister r:1".data, "setMember".data,
            "setRegister r:1".data]), false, a2)
    | _ => .error .leftSideTypeNotImplemented
  | .expressionStatement e => do
    let (lines, ack, a1) ← printNode erc regVars insideFunction true false alloc e
    if ack then pure (lines, false, a1) else pure (lines ++ ["pop".data], false, a1)

/-- `Compiler.compile` up to (and including) the push-coalescing pass, for a
root-level program: print each body node with empty context stacks, then run
`optimize`.  The allocator argument of `printNode` is never consulted at the
root. -/
def compileUpToCoalesce (nodes : List Node) : Except CompilerError (List Str) := do
  let folded ← nodes.foldlM
    (fun (acc : List Str × RegisterAllocator) n => do
      let (ls, _, a') ← printNode false [] false false false acc.2 n
      pure (acc.1 ++ ls, a'))
    ([], RegisterAllocator.empty)
  pure (optimize folded.1)

/-- The AST of the statement `a = b = 123;` (neither name in a register). -/
def chainedAssignmentProgram : Node :=
  .expressionStatement
    (.assignmentExpression "=".data (.identifier "a".data)
      (.assignmentExpression "=".data (.identifier "b".data)
        (.numericLiteral 123)))

/-- The four lines the compiler actually produces for `a = b = 123;` after
coalescing. -/
def chainedAssignmentActual : List Str :=
  ["push ".data ++ quoted "a".data ++ ", ".data ++ quoted "b".data ++ ", 123".data,
   "setVariable".data,
   "push 123".data,
   "setVariable".data]

/-- Claim C2 fails as stated: the inner assignment's re-pushed literal is
consumed by the outer `setVariable`, the assignment acknowledges the
void-expression offer, and `ExpressionStatement` therefore emits no
trailing `pop`.  The compiled output is the four-line sequence, not the
claimed five-line sequence ending in `pop`. -/
theorem c2_counterexample :
    compileUpToCoalesce [chainedAssignmentProgram] = .ok chainedAssignmentActual ∧
    chainedAssignmentActual ≠ chainedAssignmentActual ++ ["pop".data] :=
  ⟨rfl, by decide⟩

/-- Claim C2, amended: for the top-level input statement `a = b = 123;`
(with neither name resolving to a register), the compiled output after push
coalescing is exactly `push 'a', 'b', 123`, then `setVariable`, then
`push 123`, then `setVariable` — with no trailing `pop`, because the
assignment sets the void-expression ack flag and the statement emits
nothing further. -/
theorem c2_chained_assignment_amended :
    compileUpToCoalesce [chainedAssignmentProgram] = .ok chainedAssignmentActual :=
  rfl

/-- A register-variables context as pushed by the directive
`@js2f/push-register-context: r:2=foo`: it maps `foo` and nothing else. -/
def fooDirectiveContext : RegisterVariablesContext :=
  ⟨.fromDirective, fun n =>
    if n = "foo".data then some ⟨2, none, some "declared:foo".data⟩ else none⟩

/-- Claim C3 is the intended behaviour but the code's branch condition is
inverted: when a register-variables context exists without a `this`
register, the source tests `!this.contexts.function.peek()` and raises the
*internal* error precisely when NO FunctionContext is present (the comments
above the two `throw` sites describe the opposite cases), and raises the
directive-suggesting user error when a FunctionContext IS present.  Both
evaluations below contradict the claim. -/
theorem c3_this_expression_branches_swapped :
    printNode false [fooDirectiveContext] false false false
        RegisterAllocator.empty .thisExpression =
      .error .internalThisRegisterMissing ∧
    printNode false [fooDirectiveContext] true false false
        RegisterAllocator.empty .thisExpression =
      .error .thisUsedWithoutDirectiveDeclaration ∧
    CompilerError.internalThisRegisterMissing ≠
      CompilerError.thisUsedWithoutDirectiveDeclaration :=
  ⟨rfl, rfl, by decide⟩

/-- Every-occurrence single-character replacement, for comparing the code's
non-global replace with the claim's wording. -/
def replaceAllChar (c : Char) (repl : Str) : Str → Str
  | [] => []
  | a :: as => (if a = c then repl else [a]) ++ replaceAllChar c repl as

/-- One character of the escape described by the claim (and the spec). -/
def escCharSpec (c : Char) : Str :=
  if c = '\x08' then ['\\', 'b']
  else if c = '\x0c' then ['\\', 'f']
  else if c = '\x0a' then ['\\', 'n']
  else if c = '\x0d' then ['\\', 'r']
  else if c = '\x09' then ['\\', 't']
  else [c]

/-- The claim's escape function: simultaneous replacement of every
occurrence of every control character. -/
def escapeEveryOccurrenceSpec : Str → Str
  | [] => []
  | c :: v => escCharSpec c ++ escapeEveryOccurrenceSpec v

lemma replaceAllChar_of_count_zero (c : Char) (repl : Str) :
    ∀ v : Str, v.count c = 0 → replaceAllChar c repl v = v := by
  intro v
  induction v with
  | nil => intro _; rfl
  | cons a as ih =>
    intro h
    rw [List.count_cons] at h
    have ha : ¬(a = c) := by intro hac; simp [hac] at h
    have hz : as.count c = 0 := by simp [ha, beq_iff_eq] at h; omega
    simp [replaceAllChar, ha, ih hz]

lemma replaceFirstChar_eq_replaceAllChar (c : Char) (repl : Str) :
    ∀ v : Str, v.count c ≤ 1 → replaceFirstChar c repl v = replaceAllChar c repl v := by
  intro v
  induction v with
  | nil => intro _; rfl
  | cons a as ih =>
    intro h
    rw [List.count_cons] at h
    by_cases ha : a = c
    · have hz : as.count c = 0 := by simp [ha, beq_iff_eq] at h; omega
      subst ha
      simp [replaceFirstChar, replaceAllChar, replaceAllChar_of_count_zero a repl as hz]
    · have hle : as.count c ≤ 1 := by simp [ha, beq_iff_eq] at h; omega
      simp [replaceFirstChar, replaceAllChar, ha, ih hle]

lemma count_replaceFirstChar (c c' : Char) (repl : Str)
    (hne : c' ≠ c) (hrepl : repl.count c' = 0) :
    ∀ v : Str, (replaceFirstChar c repl v).count c' = v.count c' := by
  intro v
  induction v with
  | nil => rfl
  | cons a as ih =>
    by_cases ha : a = c
    · subst ha
      have hac : ¬(a = c') := fun hc => hne hc.symm
      simp [replaceFirstChar, List.count_append, hrepl, List.count_cons, hac]
    · simp [replaceFirstChar, ha, List.count_cons, ih]

lemma replaceAllChar_append (c : Char) (repl : Str) (x y : Str) :
    replaceAllChar c repl (x ++ y) =
      replaceAllChar c repl x ++ replaceAllChar c repl y := by
  induction x with
  | nil => rfl
  | cons a as ih =>
    simp only [List.cons_append, replaceAllChar, List.append_eq, ih, List.append_assoc]

/-- The chain of every-occurrence replacements in table order. -/
def chainAllEscapes (v : Str) : Str :=
  escapeTable.foldl (fun s p => replaceAllChar p.1 p.2 s) v

lemma chainAllEscapes_append (x y : Str) :
    chainAllEscapes (x ++ y) = chainAllEscapes x ++ chainAllEscapes y := by
  simp only [chainAllEscapes, escapeTable, List.foldl_cons, List.foldl_nil,
    replaceAllChar_append]

lemma chainAllEscapes_single (a : Char) : chainAllEscapes [a] = escCharSpec a := by
  by_cases h1 : a = '\x08'
  · subst h1; decide
  by_cases h2 : a = '\x0c'
  · subst h2; decide
  by_cases h3 : a = '\x0a'
  · subst h3; decide
  by_cases h4 : a = '\x0d'
  · subst h4; decide
  by_cases h5 : a = '\x09'
  · subst h5; decide
  simp [chainAllEscapes, escapeTable, replaceAllChar, escCharSpec,
    h1, h2, h3, h4, h5]

lemma chainAllEscapes_eq_spec :
    ∀ v : Str, chainAllEscapes v = escapeEveryOccurrenceSpec v := by
  intro v
  induction v with
  | nil => rfl
  | cons a as ih =>
    have h1 : chainAllEscapes (a :: as) = chainAllEscapes [a] ++ chainAllEscapes as :=
      chainAllEscapes_append [a] as
    rw [h1, ih, chainAllEscapes_single]
    rfl

lemma stringLiteralEscape_eq_chainAll (v : Str)
    (h1 : v.count '\x08' ≤ 1) (h2 : v.count '\x0c' ≤ 1) (h3 : v.count '\x0a' ≤ 1)
    (h4 : v.count '\x0d' ≤ 1) (h5 : v.count '\x09' ≤ 1) :
    stringLiteralEscape v = chainAllEscapes v := by
  have e1 := replaceFirstChar_eq_replaceAllChar '\x08' ['\\', 'b'] v h1
  have c12 : (replaceAllChar '\x08' ['\\', 'b'] v).count '\x0c' = v.count '\x0c' := by
    rw [← e1]; exact count_replaceFirstChar _ _ _ (by decide) (by decide) v
  have c13 : (replaceAllChar '\x08' ['\\', 'b'] v).count '\x0a' = v.count '\x0a' := by
    rw [← e1]; exact count_replaceFirstChar _ _ _ (by decide) (by decide) v
  have c14 : (replaceAllChar '\x08' ['\\', 'b'] v).count '\x0d' = v.count '\x0d' := by
    rw [← e1]; exact count_replaceFirstChar _ _ _ (by decide) (by decide) v
  have c15 : (replaceAllChar '\x08' ['\\', 'b'] v).count '\x09' = v.count '\x09' := by
    rw [← e1]; exact count_replaceFirstChar _ _ _ (by decide) (by decide) v
  have e2 := replaceFirstChar_eq_replaceAllChar '\x0c' ['\\', 'f'] _ (c12 ▸ h2)
  have c23 : (replaceAllChar '\x0c' ['\\', 'f'] (replaceAllChar '\x08' ['\\', 'b'] v)).count '\x0a' =
      (replaceAllChar '\x08' ['\\', 'b'] v).count '\x0a' := by
    rw [← e2]; exact count_replaceFirstChar _ _ _ (by decide) (by decide) _
  have c24 : (replaceAllChar '\x0c' ['\\', 'f'] (replaceAllChar '\x08' ['\\', 'b'] v)).count '\x0d' =
      (replaceAllChar '\x08' ['\\', 'b'] v).count '\x0d' := by
    rw [← e2]; exact count_replaceFirstChar _ _ _ (by decide) (by decide) _
  have c25 : (replaceAllChar '\x0c' ['\\', 'f'] (replaceAllChar '\x08' ['\\', 'b'] v)).count '\x09' =
      (replaceAllChar '\x08' ['\\', 'b'] v).count '\x09' := by
    rw [← e2]; exact count_replaceFirstChar _ _ _ (by decide) (by decide) _
  have e3 := replaceFirstChar_eq_replaceAllChar '\x0a' ['\\', 'n'] _ (c23 ▸ c13 ▸ h3)
  have c34 : (replaceAllChar '\x0a' ['\\', 'n'] (replaceAllChar '\x0c' ['\\', 'f']
        (replaceAllChar '\x08' ['\\', 'b'] v))).count '\x0d' =
      (replaceAllChar '\x0c' ['\\', 'f'] (replaceAllChar '\x08' ['\\', 'b'] v)).count '\x0d' := by
    rw [← e3]; exact count_replaceFirstChar _ _ _ (by decide) (by decide) _
  have c35 : (replaceAllChar '\x0a' ['\\', 'n'] (replaceAllChar '\x0c' ['\\', 'f']
        (replaceAllChar '\x08' ['\\', 'b'] v))).count '\x09' =
      (replaceAllChar '\x0c' ['\\', 'f'] (replaceAllChar '\x08' ['\\', 'b'] v)).count '\x09' := by
    rw [← e3]; exact count_replaceFirstChar _ _ _ (by decide) (by decide) _
  have e4 := replaceFirstChar_eq_replaceAllChar '\x0d' ['\\', 'r'] _ (c34 ▸ c24 ▸ c14 ▸ h4)
  have c45 : (replaceAllChar '\x0d' ['\\', 'r'] (replaceAllChar '\x0a' ['\\', 'n']
        (replaceAllChar '\x0c' ['\\', 'f'] (replaceAllChar '\x08' ['\\', 'b'] v)))).count '\x09' =
      (replaceAllChar '\x0a' ['\\', 'n'] (replaceAllChar '\x0c' ['\\', 'f']
        (replaceAllChar '\x08' ['\\', 'b'] v))).count '\x09' := by
    rw [← e4]; exact count_replaceFirstChar _ _ _ (by decide) (by decide) _
  have e5 := replaceFirstChar_eq_replaceAllChar '\x09' ['\\', 't'] _
    (c45 ▸ c35 ▸ c25 ▸ c15 ▸ h5)
  simp only [stringLiteralEscape, chainAllEscapes, escapeTable,
    List.foldl_cons, List.foldl_nil]
  rw [e1, e2, e3, e4, e5]

/-- Claim C7 fails as stated: the escape regexes carry no global flag, so
`String.replace` rewrites only the first occurrence.  For the string
literal containing two newlines the emitted operand escapes only the first
newline; the claimed every-occurrence escape differs. -/
theorem c7_counterexample :
    (printNode false [] false false false RegisterAllocator.empty
        (.stringLiteral ['\n', '\n'])).map (fun r => r.1) =
      .ok ["push ".data ++ quoted ['\\', 'n', '\n']] ∧
    "push ".data ++ quoted ['\\', 'n', '\n'] ≠
      "push ".data ++ quoted ['\\', 'n', '\\', 'n'] ∧
    escapeEveryOccurrenceSpec ['\n', '\n'] = ['\\', 'n', '\\', 'n'] :=
  ⟨rfl, by decide, by decide⟩

/-- Claim C7, amended: a StringLiteral emits exactly one instruction
`push '<escaped>'`, where the escape replaces only the FIRST occurrence of
each of backspace, form feed, newline, carriage return and tab (the
regexes are non-global), applied in that order; when each control
character occurs at most once in the value this agrees with the claimed
every-occurrence escape. -/
theorem c7_string_literal_amended (erc : Bool)
    (regVars : List RegisterVariablesContext) (insideFn void skip : Bool)
    (alloc : RegisterAllocator) (v : Str) :
    printNode erc regVars insideFn void skip alloc (.stringLiteral v) =
      .ok (["push ".data ++ quoted (stringLiteralEscape v)], false, alloc) ∧
    ((v.count '\x08' ≤ 1 ∧ v.count '\x0c' ≤ 1 ∧ v.count '\x0a' ≤ 1 ∧
        v.count '\x0d' ≤ 1 ∧ v.count '\x09' ≤ 1) →
      stringLiteralEscape v = escapeEveryOccurrenceSpec v) :=
  ⟨rfl, fun h =>
    (stringLiteralEscape_eq_chainAll v h.1 h.2.1 h.2.2.1 h.2.2.2.1
      h.2.2.2.2).trans (chainAllEscapes_eq_spec v)⟩

/-- Witness for `c7_string_literal_amended` at a concrete literal with one
newline. -/
theorem c7_string_literal_amended_witness :
    stringLiteralEscape ['a', '\n', 'b'] = escapeEveryOccurrenceSpec ['a', '\n', 'b'] :=
  (c7_string_literal_amended false [] false false false
    RegisterAllocator.empty ['a', '\n', 'b']).2
    ⟨by decide, by decide, by decide, by decide, by decide⟩

lemma except_bind_ok {α β γ : Type} (x : Except γ α) (f : α → Except γ β) (b : β)
    (h : (x >>= f) = .ok b) : ∃ a, x = .ok a ∧ f a = .ok b := by
  cases x with
  | error e => simp [Bind.bind, Except.bind] at h
  | ok a => exact ⟨a, rfl, by simpa [Bind.bind, Except.bind] using h⟩

lemma RegisterAllocator.eq_of_registers (a b : RegisterAllocator)
    (h : a.registers = b.registers) : a = b := by
  cases a; cases b; cases h; rfl

/-- Allocate-then-free round trip: the allocator state is restored exactly
(the claimed first free slot was empty before). -/
lemma allocate_free_roundtrip (a : RegisterAllocator) (n d : Option Str)
    (temp : Register) (a' : RegisterAllocator)
    (h : a.allocate n d = .ok (temp, a')) : a'.free temp = a := by
  obtain ⟨_, _, hnone, _, _, hreg⟩ := allocGo_ok a n d 254 1 temp a' h
  refine RegisterAllocator.eq_of_registers _ _ (funext fun j => ?_)
  simp only [RegisterAllocator.free, hreg j]
  by_cases hj : j = temp.id
  · subst hj; simp [hnone]
  · simp [hj]

/-- Every successful visit leaves the enclosing function's allocator in
exactly the state it started in: the only allocator traffic is the
temporary register of caller-cleanup assignment, which is freed before the
visitor returns. -/
lemma printNode_alloc_preserved :
    ∀ (node : Node) (erc : Bool) (regVars : List RegisterVariablesContext)
      (insideFn voidOff skipGet : Bool) (alloc : RegisterAllocator)
      (lines : List Str) (ack : Bool) (alloc' : RegisterAllocator),
      printNode erc regVars insideFn voidOff skipGet alloc node =
        .ok (lines, ack, alloc') →
      alloc' = alloc := by
  intro node
  induction node with
  | numericLiteral v =>
    intro erc regVars insideFn voidOff skipGet alloc lines ack alloc' h
    simp only [printNode, Except.ok.injEq, Prod.mk.injEq] at h
    exact h.2.2.symm
  | stringLiteral v =>
    intro erc regVars insideFn voidOff skipGet alloc lines ack alloc' h
    simp only [printNode, Except.ok.injEq, Prod.mk.injEq] at h
    exact h.2.2.symm
  | identifier name =>
    intro erc regVars insideFn voidOff skipGet alloc lines ack alloc' h
    simp only [printNode] at h
    split at h
    · simp only [Except.ok.injEq, Prod.mk.injEq] at h
      exact h.2.2.symm
    · split at h
      · simp only [Except.ok.injEq, Prod.mk.injEq] at h
        exact h.2.2.symm
      · split at h
        · simp only [Except.ok.injEq, Prod.mk.injEq] at h
          exact h.2.2.symm
        · simp only [Except.ok.injEq, Prod.mk.injEq] at h
          exact h.2.2.symm
  | thisExpression =>
    intro erc regVars insideFn voidOff skipGet alloc lines ack alloc' h
    simp only [printNode] at h
    split at h
    · exact absurd h (by simp)
    · split at h
      · split at h <;> exact absurd h (by simp)
      · simp only [Except.ok.injEq, Prod.mk.injEq] at h
        exact h.2.2.symm
  | memberExpression obj prop computed iho ihp =>
    intro erc regVars insideFn voidOff skipGet alloc lines ack alloc' h
    simp only [printNode] at h
    obtain ⟨⟨objLines, a1⟩, hobj, h⟩ := except_bind_ok _ _ _ h
    dsimp only at h
    obtain ⟨⟨propLines, a2⟩, hprop, h⟩ := except_bind_ok _ _ _ h
    dsimp only at h
    have ha1 : a1 = alloc := by
      split at hobj
      · split at hobj <;>
          (simp only [pure, Except.pure, Except.ok.injEq, Prod.mk.injEq] at hobj;
           exact hobj.2.symm)
      · obtain ⟨⟨ls, ackx, ax⟩, hrec, hobj⟩ := except_bind_ok _ _ _ hobj
        dsimp only at hobj
        simp only [pure, Except.pure, Except.ok.injEq, Prod.mk.injEq] at hobj
        rw [← hobj.2]
        exact iho _ _ _ _ _ _ _ _ _ hrec
      · obtain ⟨⟨ls, ackx, ax⟩, hrec, hobj⟩ := except_bind_ok _ _ _ hobj
        dsimp only at hobj
        simp only [pure, Except.pure, Except.ok.injEq, Prod.mk.injEq] at hobj
        rw [← hobj.2]
        exact iho _ _ _ _ _ _ _ _ _ hrec
      · exact absurd hobj (by simp)
    have ha2 : a2 = a1 := by
      split at hprop
      · obtain ⟨⟨ls, ackx, ax⟩, hrec, hprop⟩ := except_bind_ok _ _ _ hprop
        dsimp only at hprop
        simp only [pure, Except.pure, Except.ok.injEq, Prod.mk.injEq] at hprop
        rw [← hprop.2]
        exact ihp _ _ _ _ _ _ _ _ _ hrec
      · split at hprop
        · simp only [pure, Except.pure, Except.ok.injEq, Prod.mk.injEq] at hprop
          exact hprop.2.symm
        · exact absurd hprop (by simp)
    have hfin : alloc' = a2 := by
      split at h <;>
        (simp only [pure, Except.pure, Except.ok.injEq, Prod.mk.injEq] at h;
         exact h.2.2.symm)
    rw [hfin, ha2, ha1]
  | assignmentExpression operator left right ihl ihr =>
    intro erc regVars insideFn voidOff skipGet alloc lines ack alloc' h
    cases left with
    | identifier leftName =>
      simp only [printNode] at h
      split at h
      · -- left resolves to a register
        obtain ⟨⟨rl, ackx, a1⟩, hr, h⟩ := except_bind_ok _ _ _ h
        dsimp only at h
        have ha1 : a1 = alloc := by
          split at hr
          · exact ihr _ _ _ _ _ _ _ _ _ hr
          · exact absurd hr (by simp)
        have hfin : alloc' = a1 := by
          split at h <;>
            (simp only [pure, Except.pure, Except.ok.injEq, Prod.mk.injEq] at h;
             exact h.2.2.symm)
        rw [hfin, ha1]
      · -- non-register identifier left
        obtain ⟨⟨rl, ackx, a2⟩, hr, h⟩ := except_bind_ok _ _ _ h
        dsimp only at h
        have ha2 : a2 = alloc := by
          split at hr
          · exact ihr _ _ _ _ _ _ _ _ _ hr
          · exact absurd hr (by simp)
        split at h
        · simp only [pure, Except.pure, Except.ok.injEq, Prod.mk.injEq] at h
          rw [← h.2.2, ha2]
        · split at h
          · obtain ⟨⟨rl2, acky, a3⟩, hr2, h⟩ := except_bind_ok _ _ _ h
            dsimp only at h
            have ha3 : a3 = a2 := by
              split at hr2
              · exact ihr _ _ _ _ _ _ _ _ _ hr2
              · exact absurd hr2 (by simp)
            simp only [pure, Except.pure, Except.ok.injEq, Prod.mk.injEq] at h
            rw [← h.2.2, ha3, ha2]
          · split at h
            · -- inside a function: temporary register round trip
              split at h
              · exact absurd h (by simp)
              · rename_i temp a3 halloc2
                simp only [pure, Except.pure, Except.ok.injEq, Prod.mk.injEq] at h
                rw [← h.2.2, allocate_free_roundtrip _ _ _ _ _ halloc2, ha2]
            · -- at the root: borrowed register, no allocator traffic
              simp only [pure, Except.pure, Except.ok.injEq, Prod.mk.injEq] at h
              rw [← h.2.2, ha2]
    | memberExpression o p c =>
      simp only [printNode] at h
      obtain ⟨⟨ll, ackl, a1⟩, hl, h⟩ := except_bind_ok _ _ _ h
      dsimp only at h
      have hl' : printNode erc regVars insideFn false true alloc
          (Node.memberExpression o p c) = .ok (ll, ackl, a1) := by
        simp only [printNode]
        exact hl
      have ha1 : a1 = alloc := ihl _ _ _ _ _ _ _ _ _ hl'
      obtain ⟨⟨rl, ackx, a2⟩, hr, h⟩ := except_bind_ok _ _ _ h
      dsimp only at h
      have ha2 : a2 = a1 := by
        split at hr
        · exact ihr _ _ _ _ _ _ _ _ _ hr
        · exact absurd hr (by simp)
      split at h
      · simp only [pure, Except.pure, Except.ok.injEq, Prod.mk.injEq] at h
        rw [← h.2.2, ha2, ha1]
      · split at h
        · obtain ⟨⟨rl2, acky, a3⟩, hr2, h⟩ := except_bind_ok _ _ _ h
          dsimp only at h
          have ha3 : a3 = a2 := by
            split at hr2
            · exact ihr _ _ _ _ _ _ _ _ _ hr2
            · exact absurd hr2 (by simp)
          simp only [pure, Except.pure, Except.ok.injEq, Prod.mk.injEq] at h
          rw [← h.2.2, ha3, ha2, ha1]
        · split at h
          · split at h
            · exact absurd h (by simp)
            · rename_i temp a3 halloc2
              simp only [pure, Except.pure, Except.ok.injEq, Prod.mk.injEq] at h
              rw [← h.2.2, allocate_free_roundtrip _ _ _ _ _ halloc2, ha2, ha1]
          · simp only [pure, Except.pure, Except.ok.injEq, Prod.mk.injEq] at h
            rw [← h.2.2, ha2, ha1]
    | numericLiteral v => exact absurd h (by simp [printNode])
    | stringLiteral v => exact absurd h (by simp [printNode])
    | thisExpression => exact absurd h (by simp [printNode])
    | assignmentExpression op2 l2 r2 => exact absurd h (by simp [printNode])
    | expressionStatement e2 => exact absurd h (by simp [printNode])
  | expressionStatement e ihe =>
    intro erc regVars insideFn voidOff skipGet alloc lines ack alloc' h
    simp only [printNode] at h
    obtain ⟨⟨ls, ackx, a1⟩, hrec, h⟩ := except_bind_ok _ _ _ h
    dsimp only at h
    have : alloc' = a1 := by
      split at h <;>
        (simp only [pure, Except.pure, Except.ok.injEq, Prod.mk.injEq] at h;
         exact h.2.2.symm)
    rw [this]
    exact ihe _ _ _ _ _ _ _ _ _ hrec

/-- Claim C10: every successful AssignmentExpression visit (any left shape,
any mode) leaves the enclosing function's allocator holding exactly the
registers it held before — in particular the caller-cleanup temporary is
freed before the visitor returns — and, since the allocator state is
restored exactly, an immediately following visit allocates the same
temporary register id.  The second conjunct exhibits the caller-cleanup
path for a non-register identifier left inside a function: the emitted
lines contain `setRegister`/`push` of a temporary obtained from `allocate`,
and the final allocator is `free` of that temporary. -/
theorem c10_assignment_preserves_allocator :
    (∀ (node : Node) (erc : Bool) (regVars : List RegisterVariablesContext)
        (insideFn voidOff skipGet : Bool) (alloc : RegisterAllocator)
        (lines : List Str) (ack : Bool) (alloc' : RegisterAllocator),
      printNode erc regVars insideFn voidOff skipGet alloc node =
        .ok (lines, ack, alloc') →
      alloc' = alloc) ∧
    (∀ (erc : Bool) (regVars : List RegisterVariablesContext) (leftName : Str)
        (right : Node) (alloc : RegisterAllocator) (lines : List Str)
        (ack : Bool) (alloc' : RegisterAllocator),
      peekGetVariableRegister regVars leftName = none →
      isPushableLiteralNode right = false →
      printNode erc regVars true false false alloc
          (.assignmentExpression "=".data (.identifier leftName) right) =
        .ok (lines, ack, alloc') →
      alloc' = alloc ∧
      ∃ rl rlAck a2 temp a3,
        printNode erc regVars true false false alloc right = .ok (rl, rlAck, a2) ∧
        a2.allocate none (if erc then some "temp".data else none) = .ok (temp, a3) ∧
        lines = ("push ".data ++ quoted leftName) :: rl ++
          ["setRegister ".data ++ temp.toToken, "setVariable".data,
            "push ".data ++ temp.toToken] ∧
        alloc' = a3.free temp) ∧
    (∀ (node node2 : Node) (erc : Bool) (regVars : List RegisterVariablesContext)
        (insideFn voidOff skipGet : Bool) (alloc : RegisterAllocator)
        (lines : List Str) (ack : Bool) (alloc' : RegisterAllocator),
      printNode erc regVars insideFn voidOff skipGet alloc node =
        .ok (lines, ack, alloc') →
      printNode erc regVars insideFn voidOff skipGet alloc' node2 =
        printNode erc regVars insideFn voidOff skipGet alloc node2) := by
  refine ⟨printNode_alloc_preserved, ?_, ?_⟩
  · intro erc regVars leftName right alloc lines ack alloc' hpeek hlit h
    have hpres := printNode_alloc_preserved _ _ _ _ _ _ _ _ _ _ h
    refine ⟨hpres, ?_⟩
    simp only [printNode, hpeek, hlit] at h
    obtain ⟨⟨rl, rlAck, a2⟩, hr, h⟩ := except_bind_ok _ _ _ h
    dsimp only at h
    simp only [if_true] at hr
    simp only [Bool.false_eq_true, if_false, if_true] at h
    split at h
    · exact absurd h (by simp)
    · rename_i temp a3 halloc2
      simp only [pure, Except.pure, Except.ok.injEq, Prod.mk.injEq] at h
      exact ⟨rl, rlAck, a2, temp, a3, hr, halloc2, h.1.symm, h.2.2.symm⟩
  · intro node node2 erc regVars insideFn voidOff skipGet alloc lines ack alloc' h
    rw [printNode_alloc_preserved _ _ _ _ _ _ _ _ _ _ h]

/-- Witness for `c10_assignment_preserves_allocator`: compiling `g = h`
inside a function from an empty allocator allocates temporary r:1 and hands
back an allocator equal to the empty one. -/
theorem c10_assignment_preserves_allocator_witness :
    ((⟨fun j => if j = (1 : Int) then none
        else if j = (1 : Int) then some ⟨1, none, none⟩ else none⟩ :
      RegisterAllocator) = RegisterAllocator.empty) := by
  have h := c10_assignment_preserves_allocator.2.1 false [] "g".data
    (.identifier "h".data) RegisterAllocator.empty _ _ _ rfl rfl rfl
  exact h.1

/-! ## Abstract VM for the borrowed-register sequence (claim C1)

The claim stipulates the VM semantics: `setRegister` copies the stack top
without popping; `setVariable` and `setMember` consume their operands;
`push` pushes; `getVariable` replaces the popped name by the variable's
value.  The stack top is the head of the list. -/

/-- Runtime values. -/
inductive VMValue
  | str (s : Str)
  | num (n : Int)
  | undef
deriving DecidableEq

/-- The instruction forms appearing in assignment sequences. -/
inductive VMInstr
  | pushString (s : Str)
  | pushNumber (n : Int)
  | pushRegister (r : Int)
  | setRegister (r : Int)
  | setVariable
  | setMember
  | getVariable
deriving DecidableEq

/-- Textual rendering; the generator's lines are exactly these. -/
def VMInstr.render : VMInstr → Str
  | .pushString s => "push ".data ++ quoted s
  | .pushNumber n => "push ".data ++ intToStr n
  | .pushRegister r => "push r:".data ++ intToStr r
  | .setRegister r => "setRegister r:".data ++ intToStr r
  | .setVariable => "setVariable".data
  | .setMember => "setMember".data
  | .getVariable => "getVariable".data

/-- VM state: operand stack, register file, global variables. -/
structure VMState where
  stack : List VMValue
  regs : Int → VMValue
  vars : Str → VMValue

/-- One VM step. -/
def vmStep (s : VMState) : VMInstr → Option VMState
  | .pushString t => some { s with stack := .str t :: s.stack }
  | .pushNumber n => some { s with stack := .num n :: s.stack }
  | .pushRegister r => some { s with stack := s.regs r :: s.stack }
  | .setRegister r =>
    match s.stack with
    | [] => none
    | v :: _ => some { s with regs := fun j => if j = r then v else s.regs j }
  | .setVariable =>
    match s.stack with
    | v :: .str name :: rest =>
      some { s with
        stack := rest
        vars := fun m => if m = name then v else s.vars m }
    | _ => none
  | .setMember =>
    match s.stack with
    | _ :: _ :: _ :: rest => some { s with stack := rest }
    | _ => none
  | .getVariable =>
    match s.stack with
    | .str name :: rest => some { s with stack := s.vars name :: rest }
    | _ => none

/-- Run a sequence of VM instructions. -/
def vmRun (s : VMState) : List VMInstr → Option VMState
  | [] => some s
  | i :: is =>
    match vmStep s i with
    | none => none
    | some s' => vmRun s' is

/-- The instruction sequence of the root-level caller-cleanup assignment
`b = c` (case C of `generators.AssignmentExpression`): borrow register 1. -/
def rootBorrowSeq : List VMInstr :=
  [.pushRegister 1,
   .pushString "b".data,
   .pushString "c".data,
   .getVariable,
   .setRegister 1,
   .setVariable,
   .setRegister 1]

/-- A concrete start state: register 1 holds 7, variable `c` holds 123. -/
def rootBorrowStart : VMState :=
  ⟨[], fun j => if j = 1 then .num 7 else .undef,
    fun m => if m = "c".data then .num 123 else .undef⟩

/-- Claim C1: the emitted-sequence half is right, the net-effect half is
wrong.  The generator emits exactly `push r:1`, evaluate left, evaluate
right, `setRegister r:1`, `setVariable`, `setRegister r:1` for the
root-level caller-cleanup assignment `b = c`; but executing that sequence
on the claim's abstract VM leaves the SAVED OLD VALUE of register 1 on top
of the stack, not the right-hand side's value.  With r1 = 7 and c = 123:
register 1 is restored to 7 and the assignment to b receives 123, but the
final stack holds 7, not 123.  This contradicts both the claim and the
code's own caller-cleanup comment that the expression's value must remain
on the stack. -/
theorem c1_root_borrow_divergence :
    printNode false [] false false false RegisterAllocator.empty
        (.assignmentExpression "=".data (.identifier "b".data)
          (.identifier "c".data)) =
      .ok (rootBorrowSeq.map VMInstr.render, false, RegisterAllocator.empty) ∧
    (vmRun rootBorrowStart rootBorrowSeq).map (fun s => s.stack) =
      some [.num 7] ∧
    (vmRun rootBorrowStart rootBorrowSeq).map (fun s => s.regs 1) =
      some (.num 7) ∧
    (vmRun rootBorrowStart rootBorrowSeq).map (fun s => s.vars "b".data) =
      some (.num 123) ∧
    VMValue.num 7 ≠ VMValue.num 123 :=
  ⟨rfl, rfl, rfl, rfl, by decide⟩

/-! ## Stack simulator

Embedded from `lib/simulator.js` (the version with per-function
`suppressSimulation`): symbolic stacks are lists of strings in JS array
order (index 0 is the bottom, pushes and pops act on the end); the stack of
stacks is a list indexed by `currentStack`.  JS `undefined` returned by
`pop()` on an empty array is modelled by `Option`: operations that would
throw a TypeError on `undefined` produce `.error .jsTypeError`, and the
ones that stringify it use the text `undefined`. -/

/-- First whitespace-separated token of the trimmed line (the opcode). -/
def opcodeOf (l : Str) : Str :=
  (trimL l).takeWhile (fun c => !(c = ' '))

/-- Everything after the first space of the trimmed line, rejoined
(`others.join(" ")` after `split(" ")`). -/
def opcodeArgsOf (l : Str) : Str :=
  ((trimL l).dropWhile (fun c => !(c = ' '))).drop 1

/-- `str.substring(a, b)` including the JS argument swap when `a > b`. -/
def jsSubstring (s : Str) (a b : Nat) : Str :=
  (s.take (max a b)).drop (min a b)

/-- `trimStartEndQuote`: peel one layer of single quotes when present. -/
def trimStartEndQuote (s : Str) : Str :=
  if startsWithL [sq] s ∧ endsWithL [sq] s then jsSubstring s 1 (s.length - 1)
  else s

/-- `/^[\w_]+$/gi` on a whole string: non-empty and all word characters. -/
def isWordChar (c : Char) : Bool :=
  ('a' ≤ c ∧ c ≤ 'z') ∨ ('A' ≤ c ∧ c ≤ 'Z') ∨ ('0' ≤ c ∧ c ≤ '9') ∨ c = '_'

/-- `couldBeMemberName`. -/
def couldBeMemberName (s : Str) : Bool :=
  !s.isEmpty && s.all isWordChar

/-- Digit run to number. -/
def digitsToNat (ds : Str) : Nat :=
  ds.foldl (fun acc c => acc * 10 + (c.toNat - 48)) 0

/-- `parseInt(str, 10)`: optional leading whitespace, optional sign, then a
non-empty digit run; `none` is NaN. -/
def parseIntJs (s : Str) : Option Int :=
  let t := s.dropWhile isWsChar
  let signAndRest : Int × Str :=
    match t with
    | '-' :: r => (-1, r)
    | '+' :: r => (1, r)
    | _ => (1, t)
  let digits := signAndRest.2.takeWhile (fun c => '0' ≤ c ∧ c ≤ '9')
  if digits.isEmpty then none
  else some (signAndRest.1 * (digitsToNat digits : Int))

/-- `parseInt` applied to a possibly-`undefined` pop result. -/
def parseIntJsOpt : Option Str → Option Int
  | none => none
  | some s => parseIntJs s

/-- The clamped start index of `splice(start)`. -/
def jsSpliceStart (len : Nat) (start : Int) : Nat :=
  if start < 0 then ((len : Int) + start).toNat else min start.toNat len

/-- `addOperatorParens` of lib/simulator.js: `operand[i] === operator`
compares a single character against the operator STRING, so multi-character
operators never match.  Forward scan stops at `(`; backward scan stops at
`)`. -/
def parensScan (op : Str) (stopper : Char) : Str → Bool
  | [] => false
  | c :: cs => if op = [c] then true else if c = stopper then false else parensScan op stopper cs

/-- Wrap the operand in parentheses when either scan finds the operator. -/
def addOperatorParens (op operand : Str) : Str :=
  if parensScan op '(' operand || parensScan op ')' operand.reverse then
    '(' :: operand ++ [')']
  else operand

/-- The `binaryOperators` table. -/
def binaryOperatorFor (opcode : Str) : Str :=
  if opcode = "equals".data then "==".data
  else if opcode = "strictEquals".data then "===".data
  else if opcode = "lessThan".data then "<".data
  else if opcode = "greaterThan".data then ">".data
  else if opcode = "shiftLeft".data then "<<".data
  else if opcode = "shiftRight".data then ">>".data
  else if opcode = "shiftRight2".data then ">>>".data
  else if opcode = "add".data then "+".data
  else if opcode = "subtract".data then "-".data
  else if opcode = "multiply".data then "*".data
  else if opcode = "divide".data then "/".data
  else if opcode = "modulo".data then "%".data
  else if opcode = "bitwiseAnd".data then "|".data
  else if opcode = "bitwiseXor".data then "^".data
  else if opcode = "bitwiseOr".data then "&".data
  else []

/-- Phase one of the push-operand split: indices of commas outside
quotes, tracking the quote state and one-character escapes. -/
def pushSplitIndicesGo : List Char → Option Char → Option Char → Nat → List Nat
  | [], _, _, _ => []
  | c :: rest, prevC, quotes, i =>
    let isEscaped := prevC = some '\\'
    let here := if c = ',' ∧ quotes = none then [i] else []
    let quotes' :=
      match quotes with
      | some q => if (c = '"' ∨ c = sq) ∧ c = q ∧ ¬isEscaped then none else some q
      | none => if c = '"' then some '"' else if c = sq then some sq else none
    here ++ pushSplitIndicesGo rest (some c) quotes' (i + 1)

/-- Comma split positions of a push operand list. -/
def pushSplitIndices (args : Str) : List Nat :=
  pushSplitIndicesGo args none none 0

/-- Remove one leading whitespace character (`replace(/^\s/, "")`). -/
def removeOneLeadingWs : Str → Str
  | [] => []
  | c :: r => if isWsChar c then r else c :: r

/-- Slice the operand string at the split positions (tail parts still carry
their comma and possible following whitespace). -/
def rawSplitRest (args : Str) (prev : Nat) : List Nat → List Str
  | [] => [args.drop (prev + 1)]
  | i :: rest => ((args.drop (prev + 1)).take (i - prev - 1)) :: rawSplitRest args i rest

/-- The full `push` operand split: slice at the commas, then strip the
comma and one following whitespace character from every part but the
first. -/
def splitPushArgs (args : Str) : List Str :=
  match pushSplitIndices args with
  | [] => [args]
  | i :: rest => args.take i :: (rawSplitRest args i rest).map removeOneLeadingWs

/-- `// <stack-contents>`, `--<empty>` when the join is falsy. -/
def stringifyVals (vals : List Str) : Str :=
  let j := joinSepL " | ".data vals
  "// ".data ++ (if j.isEmpty then "--<empty>".data else j)

/-- A per-function symbolic stack with its bail-out flag. -/
structure SimStack where
  vals : List Str
  suppressSimulation : Bool
deriving DecidableEq

/-- `new Stack()`. -/
def emptySimStack : SimStack := ⟨[], false⟩

/-- The simulator's state across lines. -/
structure SimState where
  stackList : List SimStack
  currentStack : Nat
  isInBlockComment : Bool
deriving DecidableEq

/-- The lazily-created stack list: `getStack` materialises the slot at
`currentStack` on entry to every step, so reachable states stay dense; pad
with empty stacks up to the current index. -/
def ensureStack (s : SimState) : SimState :=
  if s.currentStack < s.stackList.length then s
  else { s with stackList :=
    s.stackList ++ List.replicate (s.currentStack + 1 - s.stackList.length) emptySimStack }

/-- The stack at an index (reads of missing slots see a fresh stack). -/
def stackAt (s : SimState) (k : Nat) : SimStack :=
  s.stackList.getD k emptySimStack

/-- Replace the stack at an index. -/
def setStackAt (s : SimState) (k : Nat) (st : SimStack) : SimState :=
  { s with stackList := s.stackList.set k st }

/-- Simulator failure modes: the `return` stack-invariant assertion, an
unimplemented opcode, and the JS TypeErrors from using `undefined` pops. -/
inductive SimError
  | stackInvariantViolation
  | unimplementedOpcode
  | jsTypeError
deriving DecidableEq

/-- Replace the current stack's value list, keeping its suppression flag. -/
def withVals (s : SimState) (vs : List Str) : SimState :=
  setStackAt s s.currentStack { stackAt s s.currentStack with vals := vs }

/-- Write the current stack's `suppressSimulation` flag, keeping its values. -/
def setSuppress (s : SimState) (v : Bool) : SimState :=
  setStackAt s s.currentStack
    { stackAt s s.currentStack with suppressSimulation := v }

/-- `prevStack`: splice the current stack out of the list and step back. -/
def poppedStack (s : SimState) : SimState :=
  { s with
    stackList := s.stackList.eraseIdx s.currentStack
    currentStack := s.currentStack - 1 }

/-- Right-padded line plus the `// …` stack annotation. -/
def annotateOut (paddedOp : Str) (vs : List Str) : Str :=
  paddedOp ++ stringifyVals vs

/-- Replace the current stack's values after a value-level opcode, and
produce the annotated line. -/
def applyValsOp (s : SimState) (paddedOp : Str) (r : Except SimError (List Str)) :
    Except SimError (SimState × Str) :=
  match r with
  | .error e => .error e
  | .ok vs => .ok (withVals s vs, annotateOut paddedOp vs)

/-- `getVariable`: pop a name (TypeError on an empty stack), push it
unquoted. -/
def simGetVariableVals (vals : List Str) : Except SimError (List Str) :=
  match vals.getLast? with
  | none => .error .jsTypeError
  | some v => .ok (vals.dropLast ++ [trimStartEndQuote v])

/-- `getMember`: pop property then object; dotted form for quoted
member-name-like properties, bracketed form otherwise. -/
def simGetMemberVals (vals : List Str) : Except SimError (List Str) :=
  match vals.getLast? with
  | none => .error .jsTypeError
  | some property =>
    let rest1 := vals.dropLast
    let object := rest1.getLast?.getD "undefined".data
    let item :=
      if (startsWithL ['"'] property ∨ startsWithL [sq] property) ∧
          couldBeMemberName (trimStartEndQuote property) then
        object ++ ".".data ++ trimStartEndQuote property
      else object ++ "[".data ++ property ++ "]".data
    .ok (rest1.dropLast ++ [item])

/-- `splice(stack.length - argCount)` on the remaining values: kept prefix
and removed suffix (a NaN count splices from index 0). -/
def spliceArgsAt (rest : List Str) (argCount : Option Int) : List Str × List Str :=
  let k := match argCount with
    | some n => jsSpliceStart rest.length ((rest.length : Int) - n)
    | none => 0
  (rest.take k, rest.drop k)

/-- `new`: pop class name and argc, splice the arguments, render the
constructor call. -/
def simNewVals (vals : List Str) : Except SimError (List Str) :=
  match vals.getLast? with
  | none => .error .jsTypeError
  | some cls =>
    let rest1 := vals.dropLast
    let parts := spliceArgsAt rest1.dropLast (parseIntJsOpt rest1.getLast?)
    .ok (parts.1 ++ ["new ".data ++ trimStartEndQuote cls ++ "(".data ++
      joinSepL ", ".data parts.2.reverse ++ ")".data])

/-- `callFunction`: pop function name and argc, splice the arguments. -/
def simCallFunctionVals (vals : List Str) : Except SimError (List Str) :=
  match vals.getLast? with
  | none => .error .jsTypeError
  | some fn =>
    let rest1 := vals.dropLast
    let parts := spliceArgsAt rest1.dropLast (parseIntJsOpt rest1.getLast?)
    .ok (parts.1 ++ [trimStartEndQuote fn ++ "(".data ++
      joinSepL ", ".data parts.2.reverse ++ ")".data])

/-- `callMethod`: pop method name, object and argc, splice the
arguments. -/
def simCallMethodVals (vals : List Str) : Except SimError (List Str) :=
  match vals.getLast? with
  | none => .error .jsTypeError
  | some fn =>
    let rest1 := vals.dropLast
    let object := rest1.getLast?.getD "undefined".data
    let rest2 := rest1.dropLast
    let parts := spliceArgsAt rest2.dropLast (parseIntJsOpt rest2.getLast?)
    .ok (parts.1 ++ [object ++ ".".data ++ trimStartEndQuote fn ++ "(".data ++
      joinSepL ", ".data parts.2.reverse ++ ")".data])

/-- `increment`: pop, parenthesise around `+`, append ` + 1`. -/
def simIncrementVals (vals : List Str) : Except SimError (List Str) :=
  match vals.getLast? with
  | none => .error .jsTypeError
  | some v => .ok (vals.dropLast ++ [addOperatorParens "+".data v ++ " + 1".data])

/-- `decrement`: pop, parenthesise around `-`, append ` - 1`. -/
def simDecrementVals (vals : List Str) : Except SimError (List Str) :=
  match vals.getLast? with
  | none => .error .jsTypeError
  | some v => .ok (vals.dropLast ++ [addOperatorParens "-".data v ++ " - 1".data])

/-- A binary operator: pop right then left, parenthesise both, join. -/
def simBinaryVals (operator : Str) (vals : List Str) : Except SimError (List Str) :=
  match vals.getLast? with
  | none => .error .jsTypeError
  | some rv =>
    match vals.dropLast.getLast? with
    | none => .error .jsTypeError
    | some lv =>
      .ok (vals.dropLast.dropLast ++
        [addOperatorParens operator lv ++ operator ++ addOperatorParens operator rv])

/-- The big opcode switch of `simulateStack`, reached when the line is not
a comment, not a label, and the current stack's simulation is not
suppressed (or the opcode is `function2`).  `s` already carries the
suppression-flag update of the branch/end pre-step. -/
def simSwitch (s : SimState) (op paddedOp opcode opcodeArgs : Str) :
    Except SimError (SimState × Str) :=
  if opcode = "return".data then
    if (stackAt s s.currentStack).vals.length > 1 then
      .error .stackInvariantViolation
    else .ok (s, annotateOut paddedOp (stackAt s s.currentStack).vals)
  else if opcode = "function2".data then
    -- a function expression pushes the literal `function` on the outer stack
    if ¬ startsWithL [sq] opcodeArgs then
      .ok ({ withVals s ((stackAt s s.currentStack).vals ++ ["function".data]) with
        currentStack := s.currentStack + 1 }, op)
    else
      .ok ({ s with currentStack := s.currentStack + 1 }, op)
  else if opcode = "end".data then
    -- prevStack: splice the current stack out and step back
    .ok (poppedStack s, op)
  else if opcode = "push".data then
    applyValsOp s paddedOp
      (.ok ((stackAt s s.currentStack).vals ++ splitPushArgs opcodeArgs))
  else if opcode = "getVariable".data then
    applyValsOp s paddedOp (simGetVariableVals (stackAt s s.currentStack).vals)
  else if opcode = "getMember".data then
    applyValsOp s paddedOp (simGetMemberVals (stackAt s s.currentStack).vals)
  else if opcode = "new".data then
    applyValsOp s paddedOp (simNewVals (stackAt s s.currentStack).vals)
  else if opcode = "callFunction".data then
    applyValsOp s paddedOp (simCallFunctionVals (stackAt s s.currentStack).vals)
  else if opcode = "callMethod".data then
    applyValsOp s paddedOp (simCallMethodVals (stackAt s s.currentStack).vals)
  else if opcode = "pop".data then
    applyValsOp s paddedOp (.ok (stackAt s s.currentStack).vals.dropLast)
  else if opcode = "setRegister".data then
    .ok (s, annotateOut paddedOp (stackAt s s.currentStack).vals)
  else if opcode = "setVariable".data then
    applyValsOp s paddedOp (.ok (stackAt s s.currentStack).vals.dropLast.dropLast)
  else if opcode = "setMember".data then
    applyValsOp s paddedOp
      (.ok (stackAt s s.currentStack).vals.dropLast.dropLast.dropLast)
  else if opcode = "branch".data then
    .ok (s, op)
  else if opcode = "branchIfTrue".data then
    applyValsOp s paddedOp (.ok (stackAt s s.currentStack).vals.dropLast)
  else if opcode = "not".data then
    applyValsOp s paddedOp
      (.ok ((stackAt s s.currentStack).vals.dropLast ++
        ["!(".data ++ (stackAt s s.currentStack).vals.getLast?.getD "undefined".data ++
          ")".data]))
  else if opcode = "increment".data then
    applyValsOp s paddedOp (simIncrementVals (stackAt s s.currentStack).vals)
  else if opcode = "decrement".data then
    applyValsOp s paddedOp (simDecrementVals (stackAt s s.currentStack).vals)
  else if opcode = "equals".data ∨ opcode = "strictEquals".data ∨
      opcode = "lessThan".data ∨ opcode = "greaterThan".data ∨
      opcode = "shiftLeft".data ∨ opcode = "shiftRight".data ∨
      opcode = "shiftRight2".data ∨ opcode = "add".data ∨
      opcode = "subtract".data ∨ opcode = "multiply".data ∨
      opcode = "divide".data ∨ opcode = "modulo".data ∨
      opcode = "bitwiseAnd".data ∨ opcode = "bitwiseXor".data ∨
      opcode = "bitwiseOr".data then
    applyValsOp s paddedOp
      (simBinaryVals (binaryOperatorFor opcode) (stackAt s s.currentStack).vals)
  else if startsWithL "/*".data (trimL op) then
    .ok (s, op)
  else if startsWithL "//".data (trimL op) then
    .ok (s, op)
  else .error .unimplementedOpcode

/-- One line of `simulateStack`. -/
def simStep (rightpad : Nat) (s0 : SimState) (op : Str) :
    Except SimError (SimState × Str) :=
  let s := ensureStack s0
  let paddedOp := padEndL op rightpad
  let opcode := opcodeOf op
  let opcodeArgs := opcodeArgsOf op
  if startsWithL "/*".data (trimL op) then
    .ok ({ s with isInBlockComment := true }, op)
  else if s.isInBlockComment then
    if containsL "*/".data op then .ok ({ s with isInBlockComment := false }, op)
    else .ok (s, op)
  else if endsWithL ":".data opcode then
    .ok (s, op)
  else
    let s1 :=
      if opcode = "branch".data ∨ opcode = "branchIfTrue".data then
        setSuppress s true
      else if opcode = "end".data then
        setSuppress s false
      else s
    if (stackAt s1 s1.currentStack).suppressSimulation ∧
        ¬(opcode = "function2".data) then
      .ok (s1, op)
    else
      simSwitch s1 op paddedOp opcode opcodeArgs

/-- Process a list of lines, collecting the annotated outputs. -/
def runSim (rightpad : Nat) : SimState → List Str → Except SimError (SimState × List Str)
  | s, [] => .ok (s, [])
  | s, l :: ls =>
    match simStep rightpad s l with
    | .error e => .error e
    | .ok (s', out) =>
      match runSim rightpad s' ls with
      | .error e => .error e
      | .ok (s'', outs) => .ok (s'', out :: outs)

lemma ensureStack_currentStack (s : SimState) :
    (ensureStack s).currentStack = s.currentStack := by
  unfold ensureStack
  split <;> rfl

lemma ensureStack_isInBlockComment (s : SimState) :
    (ensureStack s).isInBlockComment = s.isInBlockComment := by
  unfold ensureStack
  split <;> rfl

lemma ensureStack_stackAt (s : SimState) (k : Nat) :
    stackAt (ensureStack s) k = stackAt s k := by
  unfold ensureStack stackAt
  split
  · rfl
  · by_cases hk : k < s.stackList.length
    · exact List.getD_append _ _ _ _ hk
    · have hrhs : s.stackList.getD k emptySimStack = emptySimStack :=
        List.getD_eq_default _ _ (by omega)
      rw [List.getD_append_right _ _ _ _ (by omega), hrhs]
      by_cases hj : k - s.stackList.length <
          s.currentStack + 1 - s.stackList.length
      · rw [List.getD_eq_getElem _ _ (by simpa using hj), List.getElem_replicate]
      · exact List.getD_eq_default _ _
          (by simp only [List.length_replicate]; omega)

lemma ensureStack_length (s : SimState) :
    s.stackList.length ≤ (ensureStack s).stackList.length ∧
      (ensureStack s).currentStack < (ensureStack s).stackList.length := by
  unfold ensureStack
  split
  · exact ⟨le_refl _, by assumption⟩
  · simp only [List.length_append, List.length_replicate]
    omega

lemma setStackAt_currentStack (s : SimState) (k : Nat) (st : SimStack) :
    (setStackAt s k st).currentStack = s.currentStack := rfl

lemma setStackAt_isInBlockComment (s : SimState) (k : Nat) (st : SimStack) :
    (setStackAt s k st).isInBlockComment = s.isInBlockComment := rfl

lemma setStackAt_length (s : SimState) (k : Nat) (st : SimStack) :
    (setStackAt s k st).stackList.length = s.stackList.length := by
  simp [setStackAt]

lemma stackAt_setStackAt_same (s : SimState) (k : Nat) (st : SimStack)
    (h : k < s.stackList.length) : stackAt (setStackAt s k st) k = st := by
  simp only [stackAt, setStackAt]
  rw [List.getD_eq_getD_get?, List.get?_set_eq_of_lt st h, Option.getD_some]

lemma stackAt_setStackAt_ne (s : SimState) (k j : Nat) (st : SimStack)
    (h : j ≠ k) : stackAt (setStackAt s k st) j = stackAt s j := by
  simp only [stackAt, setStackAt]
  rw [List.getD_eq_getD_get?, List.get?_set_ne st _ (fun hc => h hc.symm),
    ← List.getD_eq_getD_get?]

lemma opcodeOf_blockcomment (l : Str)
    (h : startsWithL "/*".data (trimL l) = true) :
    ∃ r, opcodeOf l = '/' :: r := by
  cases ht : trimL l with
  | nil => rw [ht] at h; simp [startsWithL] at h
  | cons c rest =>
    rw [ht] at h
    have hc : c = '/' := by
      simp only [startsWithL, Bool.and_eq_true, decide_eq_true_eq] at h
      exact h.1.symm
    rw [opcodeOf, ht]
    subst hc
    simp [List.takeWhile_cons]

/-- The `return` case of the simulator, under no block comment and no
suppression: the stack-invariant assertion against the current symbolic
stack, else annotation. -/
lemma simStep_return (rp : Nat) (s : SimState) (l : Str)
    (hbc : s.isInBlockComment = false)
    (hop : opcodeOf l = "return".data)
    (hsup : (stackAt (ensureStack s)
      (ensureStack s).currentStack).suppressSimulation = false) :
    simStep rp s l =
      (if (stackAt (ensureStack s) (ensureStack s).currentStack).vals.length > 1 then
        .error .stackInvariantViolation
      else
        .ok (ensureStack s, padEndL l rp ++
          stringifyVals (stackAt (ensureStack s) (ensureStack s).currentStack).vals)) := by
  have h1 : startsWithL "/*".data (trimL l) = false := by
    by_contra hc
    rw [Bool.not_eq_false] at hc
    obtain ⟨r, hr⟩ := opcodeOf_blockcomment l hc
    rw [hop] at hr
    simp at hr
  have hbc2 : (ensureStack s).isInBlockComment = false :=
    (ensureStack_isInBlockComment s).trans hbc
  simp only [simStep, hop, h1, hbc2, Bool.false_eq_true, if_false]
  rw [if_neg (by decide : ¬(endsWithL ":".data "return".data = true))]
  rw [if_neg (by decide :
    ¬("return".data = "branch".data ∨ "return".data = "branchIfTrue".data))]
  rw [if_neg (by decide : ¬("return".data = "end".data))]
  rw [if_neg (by simp [hsup])]
  simp only [simSwitch, annotateOut, if_true]

/-- Claim C8 fails as stated: when the current function's simulation has
been suppressed by an earlier branch, a `return` line is passed through
unchanged with no stack check, even though the symbolic stack holds two
values. -/
theorem c8_counterexample :
    simStep 0 ⟨[⟨["1".data, "2".data], true⟩], 0, false⟩ "return".data =
      .ok (⟨[⟨["1".data, "2".data], true⟩], 0, false⟩, "return".data) ∧
    1 < (stackAt ⟨[⟨["1".data, "2".data], true⟩], 0, false⟩ 0).vals.length :=
  ⟨rfl, by decide⟩

/-- Claim C8, amended: provided the simulator is not inside a block comment
and the current function's simulation has not been suppressed, a `return`
line fails exactly when the current symbolic stack holds strictly more than
one value, and otherwise is right-padded and annotated with the stack
contents. -/
theorem c8_return_amended (rp : Nat) (s : SimState) (l : Str)
    (hbc : s.isInBlockComment = false)
    (hop : opcodeOf l = "return".data)
    (hsup : (stackAt (ensureStack s)
      (ensureStack s).currentStack).suppressSimulation = false) :
    ((∃ e, simStep rp s l = .error e) ↔
      1 < (stackAt (ensureStack s) (ensureStack s).currentStack).vals.length) ∧
    ((stackAt (ensureStack s) (ensureStack s).currentStack).vals.length ≤ 1 →
      simStep rp s l = .ok (ensureStack s, padEndL l rp ++
        stringifyVals (stackAt (ensureStack s) (ensureStack s).currentStack).vals)) := by
  have key := simStep_return rp s l hbc hop hsup
  constructor
  · constructor
    · rintro ⟨e, he⟩
      rw [key] at he
      by_contra hc
      rw [if_neg (by omega)] at he
      exact absurd he (by simp)
    · intro hgt
      exact ⟨.stackInvariantViolation, by rw [key, if_pos (by omega)]⟩
  · intro hle
    rw [key, if_neg (by omega)]

/-- Witness for `c8_return_amended`: an unsuppressed single-value stack is
annotated, not failed. -/
theorem c8_return_amended_witness :
    simStep 0 ⟨[⟨["9".data], false⟩], 0, false⟩ "return".data =
      .ok (⟨[⟨["9".data], false⟩], 0, false⟩,
        padEndL "return".data 0 ++ stringifyVals ["9".data]) := by
  have h := c8_return_amended 0 ⟨[⟨["9".data], false⟩], 0, false⟩
    "return".data rfl rfl rfl
  exact h.2 (by decide)

/-! ## Claim C4: suppression is per-function and lasts to the matching end

The depth automaton `c4Step` mirrors, purely syntactically, how a line
moves the simulator between the suppressed function (relative depth 0) and
its nested functions (depth > 0), tracking the block-comment flag; `none`
marks the suppressed function's matching `end`. -/

/-- One line's effect on (block-comment flag, relative depth); `none` is
the matching `end` of the function at relative depth 0. -/
def c4Step (bd : Bool × Nat) (l : Str) : Option (Bool × Nat) :=
  if startsWithL "/*".data (trimL l) then some (true, bd.2)
  else if bd.1 then some (!(containsL "*/".data l), bd.2)
  else if endsWithL ":".data (opcodeOf l) then some (false, bd.2)
  else if opcodeOf l = "function2".data then some (false, bd.2 + 1)
  else if opcodeOf l = "end".data then
    (if bd.2 = 0 then none else some (false, bd.2 - 1))
  else some (false, bd.2)

/-- Fold `c4Step` over a prefix of lines; `none` once the matching end has
been consumed. -/
def c4Fold : Bool × Nat → List Str → Option (Bool × Nat)
  | bd, [] => some bd
  | bd, l :: ls =>
    match c4Step bd l with
    | none => none
    | some bd' => c4Fold bd' ls

/-- The pass-through relation between input lines and simulator outputs
inside a suppressed region: while the depth automaton sits at relative
depth `0` (a line of the suppressed function itself) the output line is
the input line verbatim, and the relation stops constraining anything
once the matching `end` (`c4Step` returning `none`) has been consumed. -/
def C4Match : Bool × Nat → List Str → List Str → Prop
  | _, [], outs => outs = []
  | _, _ :: _, [] => False
  | bd, l :: ls, o :: os =>
    (bd.2 = 0 → o = l) ∧
    ∀ bd', c4Step bd l = some bd' → C4Match bd' ls os

/-- The run invariant: the suppressed function's stack sits at index `k`,
the simulator is working at relative depth `d` above it, and the
block-comment flag is `b`. -/
def SuppressedAt (s : SimState) (k d : Nat) (b : Bool) : Prop :=
  s.currentStack = k + d ∧ k < s.stackList.length ∧
    (stackAt s k).suppressSimulation = true ∧ s.isInBlockComment = b

lemma getD_eraseIdx_lt {α : Type} (l : List α) :
    ∀ (i j : Nat) (d : α), j < i → (l.eraseIdx i).getD j d = l.getD j d := by
  induction l with
  | nil => intro i j d _; rfl
  | cons a as ih =>
    intro i j d h
    cases i with
    | zero => omega
    | succ i' =>
      cases j with
      | zero => rfl
      | succ j' =>
        simp only [List.eraseIdx_cons_succ, List.getD_cons_succ]
        exact ih i' j' d (by omega)

lemma stackAt_poppedStack_lt (s : SimState) (j : Nat) (h : j < s.currentStack) :
    stackAt (poppedStack s) j = stackAt s j :=
  getD_eraseIdx_lt s.stackList s.currentStack j emptySimStack h

lemma poppedStack_currentStack (s : SimState) :
    (poppedStack s).currentStack = s.currentStack - 1 := rfl

lemma poppedStack_isInBlockComment (s : SimState) :
    (poppedStack s).isInBlockComment = s.isInBlockComment := rfl

lemma poppedStack_length (s : SimState) (h : s.currentStack < s.stackList.length) :
    (poppedStack s).stackList.length = s.stackList.length - 1 := by
  simp [poppedStack, List.length_eraseIdx, h]

lemma setSuppress_currentStack (s : SimState) (v : Bool) :
    (setSuppress s v).currentStack = s.currentStack := rfl

lemma setSuppress_isInBlockComment (s : SimState) (v : Bool) :
    (setSuppress s v).isInBlockComment = s.isInBlockComment := rfl

lemma setSuppress_length (s : SimState) (v : Bool) :
    (setSuppress s v).stackList.length = s.stackList.length := by
  simp [setSuppress, setStackAt]

lemma stackAt_setSuppress_same (s : SimState) (v : Bool)
    (h : s.currentStack < s.stackList.length) :
    stackAt (setSuppress s v) s.currentStack =
      { stackAt s s.currentStack with suppressSimulation := v } :=
  stackAt_setStackAt_same s s.currentStack _ h

lemma stackAt_setSuppress_ne (s : SimState) (v : Bool) (j : Nat)
    (h : j ≠ s.currentStack) :
    stackAt (setSuppress s v) j = stackAt s j :=
  stackAt_setStackAt_ne s s.currentStack j _ h

lemma withVals_currentStack (s : SimState) (vs : List Str) :
    (withVals s vs).currentStack = s.currentStack := rfl

lemma withVals_isInBlockComment (s : SimState) (vs : List Str) :
    (withVals s vs).isInBlockComment = s.isInBlockComment := rfl

lemma withVals_length (s : SimState) (vs : List Str) :
    (withVals s vs).stackList.length = s.stackList.length := by
  simp [withVals, setStackAt]

lemma stackAt_withVals_ne (s : SimState) (vs : List Str) (j : Nat)
    (h : j ≠ s.currentStack) :
    stackAt (withVals s vs) j = stackAt s j :=
  stackAt_setStackAt_ne s s.currentStack j _ h

lemma stackAt_withVals_suppress (s : SimState) (vs : List Str) (j : Nat)
    (hj : j < s.stackList.length) :
    (stackAt (withVals s vs) j).suppressSimulation =
      (stackAt s j).suppressSimulation := by
  by_cases h : j = s.currentStack
  · unfold withVals
    rw [h, stackAt_setStackAt_same s s.currentStack _ (h ▸ hj)]
  · rw [stackAt_withVals_ne s vs j h]

lemma applyValsOp_ok (s : SimState) (paddedOp : Str)
    (r : Except SimError (List Str)) (s' : SimState) (out : Str)
    (h : applyValsOp s paddedOp r = .ok (s', out)) :
    ∃ vs, s' = withVals s vs := by
  cases r with
  | error e => simp [applyValsOp] at h
  | ok vs =>
    simp only [applyValsOp, Except.ok.injEq, Prod.mk.injEq] at h
    exact ⟨vs, h.1.symm⟩

set_option maxHeartbeats 3200000 in
/-- Every non-`function2`, non-`end` arm of the big switch either rewrites
only the current stack's values or leaves the state alone. -/
lemma simSwitch_state_shape (s : SimState) (op paddedOp opcode opcodeArgs : Str)
    (s' : SimState) (out : Str)
    (hstep : simSwitch s op paddedOp opcode opcodeArgs = .ok (s', out))
    (hnotf2 : ¬(opcode = "function2".data)) (hnotend : ¬(opcode = "end".data)) :
    (∃ vs, s' = withVals s vs) ∨ s' = s := by
  unfold simSwitch at hstep
  by_cases hc0 : opcode = "return".data
  · rw [if_pos hc0] at hstep
    split at hstep
    · exact absurd hstep (by simp)
    · simp only [Except.ok.injEq, Prod.mk.injEq] at hstep
      exact Or.inr hstep.1.symm
  · rw [if_neg hc0] at hstep
    by_cases hc1 : opcode = "function2".data
    · exact absurd hc1 hnotf2
    · rw [if_neg hc1] at hstep
      by_cases hc2 : opcode = "end".data
      · exact absurd hc2 hnotend
      · rw [if_neg hc2] at hstep
        by_cases hc3 : opcode = "push".data
        · rw [if_pos hc3] at hstep
          exact Or.inl (applyValsOp_ok _ _ _ _ _ hstep)
        · rw [if_neg hc3] at hstep
          by_cases hc4 : opcode = "getVariable".data
          · rw [if_pos hc4] at hstep
            exact Or.inl (applyValsOp_ok _ _ _ _ _ hstep)
          · rw [if_neg hc4] at hstep
            by_cases hc5 : opcode = "getMember".data
            · rw [if_pos hc5] at hstep
              exact Or.inl (applyValsOp_ok _ _ _ _ _ hstep)
            · rw [if_neg hc5] at hstep
              by_cases hc6 : opcode = "new".data
              · rw [if_pos hc6] at hstep
                exact Or.inl (applyValsOp_ok _ _ _ _ _ hstep)
              · rw [if_neg hc6] at hstep
                by_cases hc7 : opcode = "callFunction".data
                · rw [if_pos hc7] at hstep
                  exact Or.inl (applyValsOp_ok _ _ _ _ _ hstep)
                · rw [if_neg hc7] at hstep
                  by_cases hc8 : opcode = "callMethod".data
                  · rw [if_pos hc8] at hstep
                    exact Or.inl (applyValsOp_ok _ _ _ _ _ hstep)
                  · rw [if_neg hc8] at hstep
                    by_cases hc9 : opcode = "pop".data
                    · rw [if_pos hc9] at hstep
                      exact Or.inl (applyValsOp_ok _ _ _ _ _ hstep)
                    · rw [if_neg hc9] at hstep
                      by_cases hc10 : opcode = "setRegister".data
                      · rw [if_pos hc10] at hstep
                        simp only [Except.ok.injEq, Prod.mk.injEq] at hstep
                        exact Or.inr hstep.1.symm
                      · rw [if_neg hc10] at hstep
                        by_cases hc11 : opcode = "setVariable".data
                        · rw [if_pos hc11] at hstep
                          exact Or.inl (applyValsOp_ok _ _ _ _ _ hstep)
                        · rw [if_neg hc11] at hstep
                          by_cases hc12 : opcode = "setMember".data
                          · rw [if_pos hc12] at hstep
                            exact Or.inl (applyValsOp_ok _ _ _ _ _ hstep)
                          · rw [if_neg hc12] at hstep
                            by_cases hc13 : opcode = "branch".data
                            · rw [if_pos hc13] at hstep
                              simp only [Except.ok.injEq, Prod.mk.injEq] at hstep
                              exact Or.inr hstep.1.symm
                            · rw [if_neg hc13] at hstep
                              by_cases hc14 : opcode = "branchIfTrue".data
                              · rw [if_pos hc14] at hstep
                                exact Or.inl (applyValsOp_ok _ _ _ _ _ hstep)
                              · rw [if_neg hc14] at hstep
                                by_cases hc15 : opcode = "not".data
                                · rw [if_pos hc15] at hstep
                                  exact Or.inl (applyValsOp_ok _ _ _ _ _ hstep)
                                · rw [if_neg hc15] at hstep
                                  by_cases hc16 : opcode = "increment".data
                                  · rw [if_pos hc16] at hstep
                                    exact Or.inl (applyValsOp_ok _ _ _ _ _ hstep)
                                  · rw [if_neg hc16] at hstep
                                    by_cases hc17 : opcode = "decrement".data
                                    · rw [if_pos hc17] at hstep
                                      exact Or.inl (applyValsOp_ok _ _ _ _ _ hstep)
                                    · rw [if_neg hc17] at hstep
                                      by_cases hc18 : opcode = "equals".data ∨ opcode = "strictEquals".data ∨ opcode = "lessThan".data ∨ opcode = "greaterThan".data ∨ opcode = "shiftLeft".data ∨ opcode = "shiftRight".data ∨ opcode = "shiftRight2".data ∨ opcode = "add".data ∨ opcode = "subtract".data ∨ opcode = "multiply".data ∨ opcode = "divide".data ∨ opcode = "modulo".data ∨ opcode = "bitwiseAnd".data ∨ opcode = "bitwiseXor".data ∨ opcode = "bitwiseOr".data
                                      · rw [if_pos hc18] at hstep
                                        exact Or.inl (applyValsOp_ok _ _ _ _ _ hstep)
                                      · rw [if_neg hc18] at hstep
                                        by_cases hc19 : startsWithL "/*".data (trimL op) = true
                                        · rw [if_pos hc19] at hstep
                                          simp only [Except.ok.injEq, Prod.mk.injEq] at hstep
                                          exact Or.inr hstep.1.symm
                                        · rw [if_neg hc19] at hstep
                                          by_cases hc20 : startsWithL "//".data (trimL op) = true
                                          · rw [if_pos hc20] at hstep
                                            simp only [Except.ok.injEq, Prod.mk.injEq] at hstep
                                            exact Or.inr hstep.1.symm
                                          · rw [if_neg hc20] at hstep
                                            exact absurd hstep (by simp)

/-- Claim C9: the pop directive pops the innermost register-variables
context whenever the stack is non-empty, with no check of the context's
origin and no check of the function-context stack — in particular a pop
directive inside a function pops the function's own context; it fails
exactly when the register-variables stack is empty. -/
theorem c9_pop_register_context_directive :
    (∀ (fnStack : List RegisterAllocator) (c : RegisterVariablesContext)
        (rest : List RegisterVariablesContext),
      executePopRegisterContextDirective fnStack (c :: rest) = .ok rest) ∧
    (∀ fnStack : List RegisterAllocator,
      executePopRegisterContextDirective fnStack [] =
        .error .directiveExpectsMatchingPush) :=
  ⟨fun _ _ _ => rfl, fun _ => rfl⟩

set_option maxHeartbeats 1600000 in
/-- One simulator line under the suppressed-function invariant: the depth
automaton `c4Step` tracks the simulator state, and while at relative depth
`0` (a line of the suppressed function itself) the line is passed through
unchanged. -/
lemma c4_step_inv (rp : Nat) (s : SimState) (k d : Nat) (b : Bool) (l : Str)
    (s' : SimState) (out : Str)
    (hinv : SuppressedAt s k d b)
    (hstep : simStep rp s l = .ok (s', out)) :
    (d = 0 → out = l) ∧
    ∀ b' d', c4Step (b, d) l = some (b', d') → SuppressedAt s' k d' b' := by
  obtain ⟨hcur, hlen, hsup, hbc⟩ := hinv
  have hEcur := ensureStack_currentStack s
  have hEbc := ensureStack_isInBlockComment s
  have hEk := ensureStack_stackAt s k
  have hElen := ensureStack_length s
  have hklen : k < (ensureStack s).stackList.length := lt_of_lt_of_le hlen hElen.1
  have hEcurk : (ensureStack s).currentStack = k + d := hEcur.trans hcur
  simp only [simStep] at hstep
  by_cases h1 : startsWithL "/*".data (trimL l) = true
  · rw [if_pos h1] at hstep
    simp only [Except.ok.injEq, Prod.mk.injEq] at hstep
    obtain ⟨hs', hout⟩ := hstep
    subst hs'; subst hout
    have hc4 : c4Step (b, d) l = some (true, d) := by
      unfold c4Step; rw [if_pos h1]
    refine ⟨fun _ => rfl, ?_⟩
    intro b' d' hc
    rw [hc4, Option.some.injEq, Prod.mk.injEq] at hc
    obtain ⟨hb', hd'⟩ := hc
    subst hb'; subst hd'
    exact ⟨hEcurk, hklen,
      by show (stackAt (ensureStack s) k).suppressSimulation = true
         rw [hEk]; exact hsup,
      rfl⟩
  · rw [if_neg h1, hEbc, hbc] at hstep
    cases b with
    | true =>
      rw [if_pos rfl] at hstep
      by_cases h2 : containsL "*/".data l = true
      · rw [if_pos h2] at hstep
        simp only [Except.ok.injEq, Prod.mk.injEq] at hstep
        obtain ⟨hs', hout⟩ := hstep
        subst hs'; subst hout
        have hc4 : c4Step (true, d) l = some (false, d) := by
          unfold c4Step
          rw [if_neg h1, if_pos rfl, h2]
          rfl
        refine ⟨fun _ => rfl, ?_⟩
        intro b' d' hc
        rw [hc4, Option.some.injEq, Prod.mk.injEq] at hc
        obtain ⟨hb', hd'⟩ := hc
        subst hb'; subst hd'
        exact ⟨hEcurk, hklen,
          by show (stackAt (ensureStack s) k).suppressSimulation = true
             rw [hEk]; exact hsup,
          rfl⟩
      · have h2' : containsL "*/".data l = false := Bool.eq_false_iff.mpr h2
        rw [if_neg h2] at hstep
        simp only [Except.ok.injEq, Prod.mk.injEq] at hstep
        obtain ⟨hs', hout⟩ := hstep
        subst hs'; subst hout
        have hc4 : c4Step (true, d) l = some (true, d) := by
          unfold c4Step
          rw [if_neg h1, if_pos rfl, h2']
          rfl
        refine ⟨fun _ => rfl, ?_⟩
        intro b' d' hc
        rw [hc4, Option.some.injEq, Prod.mk.injEq] at hc
        obtain ⟨hb', hd'⟩ := hc
        subst hb'; subst hd'
        exact ⟨hEcurk, hklen, by rw [hEk]; exact hsup, hEbc.trans hbc⟩
    | false =>
      rw [if_neg Bool.false_ne_true] at hstep
      by_cases h3 : endsWithL ":".data (opcodeOf l) = true
      · rw [if_pos h3] at hstep
        simp only [Except.ok.injEq, Prod.mk.injEq] at hstep
        obtain ⟨hs', hout⟩ := hstep
        subst hs'; subst hout
        have hc4 : c4Step (false, d) l = some (false, d) := by
          unfold c4Step
          rw [if_neg h1, if_neg (show ¬((false, d).1 = true) from Bool.false_ne_true),
            if_pos h3]
        refine ⟨fun _ => rfl, ?_⟩
        intro b' d' hc
        rw [hc4, Option.some.injEq, Prod.mk.injEq] at hc
        obtain ⟨hb', hd'⟩ := hc
        subst hb'; subst hd'
        exact ⟨hEcurk, hklen, by rw [hEk]; exact hsup, hEbc.trans hbc⟩
      · rw [if_neg h3] at hstep
        by_cases h4 : opcodeOf l = "branch".data ∨ opcodeOf l = "branchIfTrue".data
        · rw [if_pos h4] at hstep
          have hf2 : ¬(opcodeOf l = "function2".data) := by
            rcases h4 with h | h <;> rw [h] <;> decide
          have hend : ¬(opcodeOf l = "end".data) := by
            rcases h4 with h | h <;> rw [h] <;> decide
          have hg1 : (stackAt (setSuppress (ensureStack s) true)
              (setSuppress (ensureStack s) true).currentStack).suppressSimulation =
                true := by
            rw [setSuppress_currentStack, stackAt_setSuppress_same _ _ hElen.2]
          rw [if_pos (And.intro hg1 hf2)] at hstep
          simp only [Except.ok.injEq, Prod.mk.injEq] at hstep
          obtain ⟨hs', hout⟩ := hstep
          subst hs'; subst hout
          have hc4 : c4Step (false, d) l = some (false, d) := by
            unfold c4Step
            rw [if_neg h1, if_neg (show ¬((false, d).1 = true) from Bool.false_ne_true),
              if_neg h3, if_neg hf2, if_neg hend]
          refine ⟨fun _ => rfl, ?_⟩
          intro b' d' hc
          rw [hc4, Option.some.injEq, Prod.mk.injEq] at hc
          obtain ⟨hb', hd'⟩ := hc
          subst hb'; subst hd'
          refine ⟨?_, ?_, ?_, ?_⟩
          · rw [setSuppress_currentStack]; exact hEcurk
          · rw [setSuppress_length]; exact hklen
          · by_cases hk : k = (ensureStack s).currentStack
            · rw [hk, stackAt_setSuppress_same _ _ hElen.2]
            · rw [stackAt_setSuppress_ne _ _ _ hk, hEk]; exact hsup
          · rw [setSuppress_isInBlockComment]; exact hEbc.trans hbc
        · rw [if_neg h4] at hstep
          by_cases h5 : opcodeOf l = "end".data
          · rw [if_pos h5] at hstep
            have hgf : ¬((stackAt (setSuppress (ensureStack s) false)
                (setSuppress (ensureStack s) false).currentStack).suppressSimulation =
                  true ∧
                ¬(opcodeOf l = "function2".data)) := by
              intro hgc
              have hx := hgc.1
              rw [setSuppress_currentStack, stackAt_setSuppress_same _ _ hElen.2] at hx
              simp at hx
            rw [if_neg hgf, h5] at hstep
            unfold simSwitch at hstep
            rw [if_neg (show ¬("end".data = "return".data) by decide),
              if_neg (show ¬("end".data = "function2".data) by decide),
              if_pos rfl] at hstep
            simp only [Except.ok.injEq, Prod.mk.injEq] at hstep
            obtain ⟨hs', hout⟩ := hstep
            subst hs'; subst hout
            have hf2' : ¬(opcodeOf l = "function2".data) := by rw [h5]; decide
            cases d with
            | zero =>
              have hc4 : c4Step (false, 0) l = none := by
                unfold c4Step
                rw [if_neg h1,
                  if_neg (show ¬((false, 0).1 = true) from Bool.false_ne_true),
                  if_neg h3, if_neg hf2', if_pos h5, if_pos rfl]
              refine ⟨fun _ => rfl, ?_⟩
              intro b' d' hc
              rw [hc4] at hc
              exact Option.noConfusion hc
            | succ d0 =>
              have hc4 : c4Step (false, d0 + 1) l = some (false, d0) := by
                unfold c4Step
                rw [if_neg h1,
                  if_neg (show ¬((false, d0 + 1).1 = true) from Bool.false_ne_true),
                  if_neg h3, if_neg hf2', if_pos h5,
                  if_neg (show ¬((false, d0 + 1).2 = 0) from Nat.succ_ne_zero d0)]
                rfl
              refine ⟨fun h0 => absurd h0 (Nat.succ_ne_zero d0), ?_⟩
              intro b' d' hc
              rw [hc4, Option.some.injEq, Prod.mk.injEq] at hc
              obtain ⟨hb', hd'⟩ := hc
              subst hb'; subst hd'
              have hE2 := hElen.2
              have hkne : k ≠ (ensureStack s).currentStack := by
                rw [hEcurk]; omega
              refine ⟨?_, ?_, ?_, ?_⟩
              · rw [poppedStack_currentStack, setSuppress_currentStack, hEcurk]
                omega
              · rw [poppedStack_length (setSuppress (ensureStack s) false)
                    (by rw [setSuppress_currentStack, setSuppress_length]; exact hE2),
                  setSuppress_length]
                omega
              · rw [stackAt_poppedStack_lt (setSuppress (ensureStack s) false) k
                    (by rw [setSuppress_currentStack, hEcurk]; omega),
                  stackAt_setSuppress_ne _ _ _ hkne, hEk]
                exact hsup
              · rw [poppedStack_isInBlockComment, setSuppress_isInBlockComment]
                exact hEbc.trans hbc
          · rw [if_neg h5] at hstep
            by_cases h7 : opcodeOf l = "function2".data
            · rw [if_neg (fun hgc => hgc.2 h7), h7] at hstep
              unfold simSwitch at hstep
              rw [if_neg (show ¬("function2".data = "return".data) by decide),
                if_pos rfl] at hstep
              have hc4 : c4Step (false, d) l = some (false, d + 1) := by
                unfold c4Step
                rw [if_neg h1,
                  if_neg (show ¬((false, d).1 = true) from Bool.false_ne_true),
                  if_neg h3, if_pos h7]
              by_cases h8 : startsWithL [sq] (opcodeArgsOf l) = true
              · rw [if_neg (not_not_intro h8)] at hstep
                simp only [Except.ok.injEq, Prod.mk.injEq] at hstep
                obtain ⟨hs', hout⟩ := hstep
                subst hs'; subst hout
                refine ⟨fun _ => rfl, ?_⟩
                intro b' d' hc
                rw [hc4, Option.some.injEq, Prod.mk.injEq] at hc
                obtain ⟨hb', hd'⟩ := hc
                subst hb'; subst hd'
                refine ⟨?_, hklen, ?_, ?_⟩
                · show (ensureStack s).currentStack + 1 = k + (d + 1)
                  rw [hEcurk]
                  omega
                · show (stackAt (ensureStack s) k).suppressSimulation = true
                  rw [hEk]; exact hsup
                · show (ensureStack s).isInBlockComment = false
                  exact hEbc.trans hbc
              · rw [if_pos h8] at hstep
                simp only [Except.ok.injEq, Prod.mk.injEq] at hstep
                obtain ⟨hs', hout⟩ := hstep
                subst hs'; subst hout
                refine ⟨fun _ => rfl, ?_⟩
                intro b' d' hc
                rw [hc4, Option.some.injEq, Prod.mk.injEq] at hc
                obtain ⟨hb', hd'⟩ := hc
                subst hb'; subst hd'
                refine ⟨?_, ?_, ?_, ?_⟩
                · show (ensureStack s).currentStack + 1 = k + (d + 1)
                  rw [hEcurk]
                  omega
                · exact lt_of_lt_of_eq hklen (withVals_length (ensureStack s)
                    ((stackAt (ensureStack s)
                      (ensureStack s).currentStack).vals ++ ["function".data])).symm
                · exact (stackAt_withVals_suppress (ensureStack s)
                    ((stackAt (ensureStack s)
                      (ensureStack s).currentStack).vals ++ ["function".data])
                    k hklen).trans (by rw [hEk]; exact hsup)
                · exact (withVals_isInBlockComment (ensureStack s)
                    ((stackAt (ensureStack s)
                      (ensureStack s).currentStack).vals ++
                        ["function".data])).trans (hEbc.trans hbc)
            · have hc4 : c4Step (false, d) l = some (false, d) := by
                unfold c4Step
                rw [if_neg h1,
                  if_neg (show ¬((false, d).1 = true) from Bool.false_ne_true),
                  if_neg h3, if_neg h7, if_neg h5]
              by_cases h6 : (stackAt (ensureStack s)
                  (ensureStack s).currentStack).suppressSimulation = true
              · rw [if_pos (And.intro h6 h7)] at hstep
                simp only [Except.ok.injEq, Prod.mk.injEq] at hstep
                obtain ⟨hs', hout⟩ := hstep
                subst hs'; subst hout
                refine ⟨fun _ => rfl, ?_⟩
                intro b' d' hc
                rw [hc4, Option.some.injEq, Prod.mk.injEq] at hc
                obtain ⟨hb', hd'⟩ := hc
                subst hb'; subst hd'
                exact ⟨hEcurk, hklen, by rw [hEk]; exact hsup, hEbc.trans hbc⟩
              · rw [if_neg (fun hgc => h6 hgc.1)] at hstep
                have hd0 : d ≠ 0 := by
                  intro h0
                  subst h0
                  apply h6
                  have hk0 : (ensureStack s).currentStack = k := hEcurk
                  rw [hk0, hEk]; exact hsup
                rcases simSwitch_state_shape _ _ _ _ _ _ _ hstep h7 h5 with
                  ⟨vs, hvs⟩ | hsE
                · subst hvs
                  refine ⟨fun h0 => absurd h0 hd0, ?_⟩
                  intro b' d' hc
                  rw [hc4, Option.some.injEq, Prod.mk.injEq] at hc
                  obtain ⟨hb', hd'⟩ := hc
                  subst hb'; subst hd'
                  refine ⟨?_, ?_, ?_, ?_⟩
                  · rw [withVals_currentStack]; exact hEcurk
                  · rw [withVals_length]; exact hklen
                  · rw [stackAt_withVals_suppress _ _ _ hklen, hEk]; exact hsup
                  · rw [withVals_isInBlockComment]; exact hEbc.trans hbc
                · subst hsE
                  refine ⟨fun h0 => absurd h0 hd0, ?_⟩
                  intro b' d' hc
                  rw [hc4, Option.some.injEq, Prod.mk.injEq] at hc
                  obtain ⟨hb', hd'⟩ := hc
                  subst hb'; subst hd'
                  exact ⟨hEcurk, hklen, by rw [hEk]; exact hsup, hEbc.trans hbc⟩

/-- Folding the step invariant over a run: every line processed while the
depth automaton sits at relative depth `0` is emitted verbatim. -/
lemma c4_run_match (rp : Nat) (ls : List Str) :
    ∀ (s : SimState) (k d : Nat) (b : Bool) (s' : SimState) (outs : List Str),
      SuppressedAt s k d b →
      runSim rp s ls = .ok (s', outs) →
      C4Match (b, d) ls outs := by
  induction ls with
  | nil =>
    intro s k d b s' outs _ hrun
    unfold runSim at hrun
    simp only [Except.ok.injEq, Prod.mk.injEq] at hrun
    rw [← hrun.2]
    rfl
  | cons l ls ih =>
    intro s k d b s' outs hinv hrun
    unfold runSim at hrun
    split at hrun
    · exact Except.noConfusion hrun
    next s1 out hst =>
      split at hrun
      · exact Except.noConfusion hrun
      next s2 outs2 hrn =>
        simp only [Except.ok.injEq, Prod.mk.injEq] at hrun
        obtain ⟨hs', houts⟩ := hrun
        rw [← houts]
        have hkey := c4_step_inv rp s k d b l s1 out hinv hst
        refine ⟨hkey.1, ?_⟩
        intro bd' hc4
        exact ih s1 k bd'.2 bd'.1 s2 outs2
          (hkey.2 bd'.1 bd'.2 (by rw [hc4])) hrn

set_option maxHeartbeats 800000 in
/-- Claim C4: in the stack simulator, a `branch` or `branchIfTrue` line sets
the current function's `suppressSimulation` flag and is returned unchanged;
from then on every line processed while the depth automaton sits at relative
depth `0` — every subsequent line belonging to that same function up to the
matching `end` — is returned unchanged (no right-padding, no `// …` stack
annotation); the matching `end` (depth automaton returning `none`) removes
the suppressed stack, steps back to the enclosing function and leaves the
enclosing stacks untouched; and afterwards a line of the unsuppressed
enclosing function (e.g. `setRegister`) is right-padded and annotated
again. -/
theorem c4_branch_suppression (rp : Nat) :
    (∀ (s : SimState) (l : Str),
      s.isInBlockComment = false →
      (opcodeOf l = "branch".data ∨ opcodeOf l = "branchIfTrue".data) →
      ∃ s₁, simStep rp s l = .ok (s₁, l) ∧
        SuppressedAt s₁ s.currentStack 0 false) ∧
    (∀ (s : SimState) (k d : Nat) (b : Bool) (ls : List Str)
        (s' : SimState) (outs : List Str),
      SuppressedAt s k d b →
      runSim rp s ls = .ok (s', outs) →
      C4Match (b, d) ls outs) ∧
    (∀ (s : SimState) (k : Nat) (l : Str),
      SuppressedAt s k 0 false →
      opcodeOf l = "end".data →
      ∃ s', simStep rp s l = .ok (s', l) ∧
        s'.currentStack = k - 1 ∧ s'.isInBlockComment = false ∧
        ∀ j, j < k → stackAt s' j = stackAt s j) ∧
    (∀ (t : SimState) (l : Str),
      t.isInBlockComment = false →
      (stackAt t t.currentStack).suppressSimulation = false →
      opcodeOf l = "setRegister".data →
      simStep rp t l = .ok (ensureStack t,
        padEndL l rp ++ stringifyVals (stackAt t t.currentStack).vals)) := by
  refine ⟨?_, ?_, ?_, ?_⟩
  · intro s l hbc h4
    have hElen := ensureStack_length s
    have hf2 : ¬(opcodeOf l = "function2".data) := by
      rcases h4 with h | h <;> rw [h] <;> decide
    have h1 : ¬(startsWithL "/*".data (trimL l) = true) := by
      intro hc
      obtain ⟨r, hr⟩ := opcodeOf_blockcomment l hc
      rcases h4 with h | h <;> rw [h] at hr <;> simp at hr
    have h3 : ¬(endsWithL ":".data (opcodeOf l) = true) := by
      rcases h4 with h | h <;> rw [h] <;> decide
    have hg1 : (stackAt (setSuppress (ensureStack s) true)
        (setSuppress (ensureStack s) true).currentStack).suppressSimulation =
          true := by
      rw [setSuppress_currentStack, stackAt_setSuppress_same _ _ hElen.2]
    refine ⟨setSuppress (ensureStack s) true, ?_, ?_, ?_, ?_, ?_⟩
    · simp only [simStep]
      rw [if_neg h1,
        if_neg (by rw [ensureStack_isInBlockComment, hbc]; exact Bool.false_ne_true),
        if_neg h3, if_pos h4, if_pos (And.intro hg1 hf2)]
    · rw [setSuppress_currentStack, ensureStack_currentStack]
      omega
    · rw [setSuppress_length]
      have := hElen.2
      rw [ensureStack_currentStack] at this
      exact this
    · rw [show s.currentStack = (ensureStack s).currentStack from
        (ensureStack_currentStack s).symm, stackAt_setSuppress_same _ _ hElen.2]
    · rw [setSuppress_isInBlockComment, ensureStack_isInBlockComment]
      exact hbc
  · intro s k d b ls s' outs hinv hrun
    exact c4_run_match rp ls s k d b s' outs hinv hrun
  · intro s k l hinv hop
    obtain ⟨hcur, hlen, hsup, hbc⟩ := hinv
    have hElen := ensureStack_length s
    have hEcur := ensureStack_currentStack s
    have hEk := ensureStack_stackAt s k
    have hEcurk : (ensureStack s).currentStack = k := hEcur.trans hcur
    have h1 : ¬(startsWithL "/*".data (trimL l) = true) := by
      intro hc
      obtain ⟨r, hr⟩ := opcodeOf_blockcomment l hc
      rw [hop] at hr
      simp at hr
    have h3 : ¬(endsWithL ":".data (opcodeOf l) = true) := by rw [hop]; decide
    have h4 : ¬(opcodeOf l = "branch".data ∨ opcodeOf l = "branchIfTrue".data) := by
      rw [hop]; decide
    have hgf : ¬((stackAt (setSuppress (ensureStack s) false)
        (setSuppress (ensureStack s) false).currentStack).suppressSimulation =
          true ∧
        ¬(opcodeOf l = "function2".data)) := by
      intro hgc
      have hx := hgc.1
      rw [setSuppress_currentStack, stackAt_setSuppress_same _ _ hElen.2] at hx
      simp at hx
    refine ⟨poppedStack (setSuppress (ensureStack s) false), ?_, ?_, ?_, ?_⟩
    · simp only [simStep]
      rw [if_neg h1,
        if_neg (by rw [ensureStack_isInBlockComment, hbc]; exact Bool.false_ne_true),
        if_neg h3, if_neg h4, if_pos hop, if_neg hgf, hop]
      unfold simSwitch
      rw [if_neg (show ¬("end".data = "return".data) by decide),
        if_neg (show ¬("end".data = "function2".data) by decide),
        if_pos rfl]
    · rw [poppedStack_currentStack, setSuppress_currentStack, hEcurk]
    · rw [poppedStack_isInBlockComment, setSuppress_isInBlockComment,
        ensureStack_isInBlockComment]
      exact hbc
    · intro j hj
      rw [stackAt_poppedStack_lt (setSuppress (ensureStack s) false) j
          (by rw [setSuppress_currentStack, hEcurk]; omega),
        stackAt_setSuppress_ne _ _ _ (by rw [hEcurk]; omega),
        ensureStack_stackAt]
  · intro t l hbc hsupf hop
    have hElen := ensureStack_length t
    have hEcur := ensureStack_currentStack t
    have h1 : ¬(startsWithL "/*".data (trimL l) = true) := by
      intro hc
      obtain ⟨r, hr⟩ := opcodeOf_blockcomment l hc
      rw [hop] at hr
      simp at hr
    have h3 : ¬(endsWithL ":".data (opcodeOf l) = true) := by rw [hop]; decide
    have h4 : ¬(opcodeOf l = "branch".data ∨ opcodeOf l = "branchIfTrue".data) := by
      rw [hop]; decide
    have h5 : ¬(opcodeOf l = "end".data) := by rw [hop]; decide
    have hsupE : (stackAt (ensureStack t)
        (ensureStack t).currentStack).suppressSimulation = false := by
      rw [hEcur, ensureStack_stackAt]
      exact hsupf
    simp only [simStep]
    rw [if_neg h1,
      if_neg (by rw [ensureStack_isInBlockComment, hbc]; exact Bool.false_ne_true),
      if_neg h3, if_neg h4, if_neg h5,
      if_neg (fun hgc => by rw [hsupE] at hgc; exact Bool.false_ne_true hgc.1), hop]
    unfold simSwitch
    rw [if_neg (show ¬("setRegister".data = "return".data) by decide),
      if_neg (show ¬("setRegister".data = "function2".data) by decide),
      if_neg (show ¬("setRegister".data = "end".data) by decide),
      if_neg (show ¬("setRegister".data = "push".data) by decide),
      if_neg (show ¬("setRegister".data = "getVariable".data) by decide),
      if_neg (show ¬("setRegister".data = "getMember".data) by decide),
      if_neg (show ¬("setRegister".data = "new".data) by decide),
      if_neg (show ¬("setRegister".data = "callFunction".data) by decide),
      if_neg (show ¬("setRegister".data = "callMethod".data) by decide),
      if_neg (show ¬("setRegister".data = "pop".data) by decide),
      if_pos rfl]
    rw [annotateOut, hEcur, ensureStack_stackAt]

/-- Witness for C4 at concrete inputs: a `branch` line suppresses the lone
root stack; a suppressed run passes `push 1` and the matching `end` through
verbatim; the matching `end` pops back with no lower stacks to disturb; and
a `setRegister` line over an unsuppressed stack is padded and annotated. -/
theorem c4_branch_suppression_witness :
    (∃ s₁, simStep 0 ⟨[⟨[], false⟩], 0, false⟩ "branch lbl1".data =
        .ok (s₁, "branch lbl1".data) ∧
      SuppressedAt s₁ 0 0 false) ∧
    C4Match (false, 0) ["push 1".data, "end".data]
      ["push 1".data, "end".data] ∧
    (∃ s', simStep 0 ⟨[⟨["a".data], true⟩], 0, false⟩ "end".data =
        .ok (s', "end".data) ∧
      s'.currentStack = 0 - 1 ∧ s'.isInBlockComment = false ∧
      ∀ j, j < 0 → stackAt s' j = stackAt ⟨[⟨["a".data], true⟩], 0, false⟩ j) ∧
    simStep 0 ⟨[⟨["5".data], false⟩], 0, false⟩ "setRegister r:1".data =
      .ok (ensureStack ⟨[⟨["5".data], false⟩], 0, false⟩,
        padEndL "setRegister r:1".data 0 ++
          stringifyVals (stackAt ⟨[⟨["5".data], false⟩], 0, false⟩ 0).vals) :=
  ⟨(c4_branch_suppression 0).1 ⟨[⟨[], false⟩], 0, false⟩ "branch lbl1".data rfl
      (Or.inl rfl),
    (c4_branch_suppression 0).2.1 ⟨[⟨[], true⟩], 0, false⟩ 0 0 false
      ["push 1".data, "end".data] ⟨[], 0, false⟩ ["push 1".data, "end".data]
      ⟨rfl, by decide, rfl, rfl⟩ rfl,
    (c4_branch_suppression 0).2.2.1 ⟨[⟨["a".data], true⟩], 0, false⟩ 0
      "end".data ⟨rfl, by decide, rfl, rfl⟩ rfl,
    (c4_branch_suppression 0).2.2.2 ⟨[⟨["5".data], false⟩], 0, false⟩
      "setRegister r:1".data rfl rfl rfl⟩
